import Mathlib

/-!
Shallow embedding of BitcoinQueryPy's connected-block machinery
(`src/iter/fetch_connected_async.rs` and `src/iter/iter_connected.rs`).

The two source files implement, for two interchangeable backends
(an in-memory concurrent map behind `Mutex`es, and a RocksDB scratch store):
  * `update_unspent_cache` — read a block and record all of its outputs
    in the unspent-output cache;
  * `connect_outpoints` — resolve every non-coinbase input of a block
    against the cache, removing the consumed slots, and build a
    "connected" block;
  * `ConnectedBlockIter::new` / `::null` — the orchestrator wiring the two
    stages through the ordered parallel pipeline engine.

Machine integers are modelled as `Nat` with explicit `% 2^w` where overflow
or truncation matters; fallible code returns `Except Unit` (the source's
`Result<_, ()>`); the shared mutable caches are threaded explicitly, and
each cache-touching step also emits a trace of cache-access events so that
"no cache access happens here" and "this removal was observed" are statable.
Types that live outside the two source files (`VecMap`, the `Compress`
trait, the `BlockConnectable`/`TxConnectable` builder traits, `ParIter`,
hashes, and the RocksDB/consensus-codec behaviour) are modelled from the
specification, and each such definition says so in its doc comment.
-/

/-- Finite partial map as a function into `Option`, used for both the
in-memory `HashedMap` and the RocksDB key space. -/
abbrev FMap (κ : Type) (α : Type) := κ → Option α

/-- Insert (overwrite) a binding, the semantics of `HashMap::insert` /
a RocksDB `put`. -/
def FMap.insert [DecidableEq κ] (k : κ) (v : α) (m : FMap κ α) : FMap κ α :=
  fun k' => if k' = k then some v else m k'

/-- Erase a binding, the semantics of `HashMap::remove` / a RocksDB
`delete`. -/
def FMap.erase [DecidableEq κ] (k : κ) (m : FMap κ α) : FMap κ α :=
  fun k' => if k' = k then none else m k'

/-- `HashMap::extend` over a list of pairs: left-to-right inserts, later
pairs overwriting earlier ones. -/
def FMap.extend [DecidableEq κ] (m : FMap κ α) (l : List (κ × α)) : FMap κ α :=
  l.foldl (fun m kv => FMap.insert kv.1 kv.2 m) m

/-- A transaction output (`bitcoin::TxOut`): a 64-bit amount and a script,
a byte string.  Bytes and the amount are `Nat`s; well-formedness bounds
(`value < 2^64`, bytes `< 256`) appear as hypotheses where they matter. -/
structure TxOut where
  value : Nat
  script_pubkey : List Nat
deriving DecidableEq

/-- An outpoint (`bitcoin::OutPoint`): the referenced transaction id (a
256-bit hash, modelled as a `Nat`) and the output index `vout` (a `u32`). -/
structure OutPoint where
  txid : Nat
  vout : Nat
deriving DecidableEq

/-- `OutPoint::is_null` — the coinbase marker: all-zero txid together with
`vout = u32::MAX`. -/
def OutPoint.is_null (o : OutPoint) : Bool :=
  o.txid == 0 && o.vout == 4294967295

/-- A transaction input (`bitcoin::TxIn`), of which only `previous_output`
is consulted by the connector. -/
structure TxIn where
  previous_output : OutPoint
deriving DecidableEq

/-- A transaction (`bitcoin::Transaction`).  `tx.txid()` is an external
hash of the transaction, modelled as a field carrying that hash value. -/
structure Transaction where
  txid : Nat
  input : List TxIn
  output : List TxOut
deriving DecidableEq

/-- A raw block (`bitcoin::Block`): a header (opaque, modelled as a `Nat`)
and the ordered transactions. -/
structure Block where
  header : Nat
  txdata : List Transaction
deriving DecidableEq

/-- Modelled from the spec: `block.header.block_hash()` is an external hash
function of the header (out of scope for the spec); any deterministic
function represents it. -/
def block_hash (header : Nat) : Nat :=
  header

/-- Modelled from the spec: the `Compress` trait (`crate::iter::util`, not
under `src/`) — "a 128-bit surrogate derived from a transaction's full
identifier"; the derivation itself is an external hash, represented by
truncation to 128 bits. -/
def compress (txid : Nat) : Nat :=
  txid % 2 ^ 128

/-- Modelled from the spec: `VecMap` (`crate::iter::util`, not under
`src/`) — "ordered collection of OutputSlots for one transaction; supports
remove-by-index and an all-slots-absent query". -/
abbrev VecMap (α : Type) := List (Option α)

/-- `VecMap::remove(n)`: take the slot at index `n` out (turning it
absent) and report what was there; out-of-range or already-absent slots
yield `none` and leave the collection unchanged. -/
def VecMap.remove (m : VecMap α) (n : Nat) : Option α × VecMap α :=
  match m[n]? with
  | some (some v) => (some v, m.set n none)
  | _ => (none, m)

/-- `VecMap::is_empty`: every slot is absent. -/
def VecMap.is_empty (m : VecMap α) : Bool :=
  m.all (fun s => s.isNone)

/-- Modelled from the spec: the `TxConnectable` builder capability
("construct transaction from raw transaction", "append a resolved previous
output in input order") — a raw transaction plus the resolved previous
outputs accumulated so far. -/
structure ConnectedTx where
  raw : Transaction
  inputs : List TxOut
deriving DecidableEq

/-- `TxConnectable::from(&tx)`: start from the raw transaction with no
resolved inputs yet. -/
def ConnectedTx.fromRaw (tx : Transaction) : ConnectedTx :=
  ⟨tx, []⟩

/-- `tx.add_input(out)`: append a resolved previous output, preserving
input order. -/
def ConnectedTx.add_input (t : ConnectedTx) (o : TxOut) : ConnectedTx :=
  ⟨t.raw, t.inputs ++ [o]⟩

/-- Modelled from the spec: the `BlockConnectable` builder capability
("construct block from header+hash", "append a finished transaction"). -/
structure ConnectedBlock where
  header : Nat
  hash : Nat
  txdata : List ConnectedTx
deriving DecidableEq

/-- `TBlock::from(header, hash)`: the connected block shell. -/
def ConnectedBlock.fromHeader (header hash : Nat) : ConnectedBlock :=
  ⟨header, hash, []⟩

/-- `block.add_tx(tx)`: append a finished transaction, preserving
transaction order. -/
def ConnectedBlock.add_tx (b : ConnectedBlock) (t : ConnectedTx) : ConnectedBlock :=
  ⟨b.header, b.hash, b.txdata ++ [t]⟩

/-- The in-memory cache
`HashedMap<u128, Arc<Mutex<VecMap<TOut>>>>` — keys are compressed txids. -/
abbrev MemCache := FMap Nat (VecMap TxOut)

/-- Cache-access events of the in-memory backend, recorded so that the
absence of cache access and the fate of removed slots are statable.
`lookup key found` is a map read under the coarse lock; `remove_slot` is a
slot removal under the entry lock, carrying what the removal returned;
`remove_entry` is a whole-entry erase under the coarse lock. -/
inductive MemEvent where
  | lookup (key : Nat) (found : Bool)
  | remove_slot (key : Nat) (n : Nat) (out : Option TxOut)
  | remove_entry (key : Nat)
deriving DecidableEq

/-- A trace event that witnesses a missed resolution: the entry was not in
the map, or the slot removal found the slot absent. -/
def MemEvent.isMiss : MemEvent → Bool
  | .lookup _ found => !found
  | .remove_slot _ _ out => out.isNone
  | .remove_entry _ => false

/-- The resolved output carried by a successful slot removal. -/
def MemEvent.value : MemEvent → Option TxOut
  | .remove_slot _ _ (some o) => some o
  | _ => none

/-- One input of `connect_outpoints` (in-memory backend,
`fetch_connected_async.rs` lines 169–221): skip the null outpoint with no
cache access; otherwise read the entry under the coarse lock, remove the
slot under the entry lock, erase the entry if it emptied, and either append
the resolved output or fail. -/
def connect_input_mem (unspent : MemCache) (output_tx : ConnectedTx) (input : TxIn) :
    Except Unit ConnectedTx × MemCache × List MemEvent :=
  if input.previous_output.is_null then
    (Except.ok output_tx, unspent, [])
  else
    let prev_txid := compress input.previous_output.txid
    let n := input.previous_output.vout
    match unspent prev_txid with
    | none =>
        (Except.error (), unspent, [MemEvent.lookup prev_txid false])
    | some prev_tx =>
        let removed := VecMap.remove prev_tx n
        let tx_out := removed.1
        let emptied := VecMap.is_empty removed.2
        let unspent' :=
          if emptied then FMap.erase prev_txid unspent
          else FMap.insert prev_txid removed.2 unspent
        let events :=
          MemEvent.lookup prev_txid true ::
            MemEvent.remove_slot prev_txid n tx_out ::
              (if emptied then [MemEvent.remove_entry prev_txid] else [])
        match tx_out with
        | some out => (Except.ok (output_tx.add_input out), unspent', events)
        | none => (Except.error (), unspent', events)

/-- The input loop of one transaction (in-memory backend), short-circuiting
on the first error and threading the cache and the event trace. -/
def connect_inputs_mem :
    MemCache → ConnectedTx → List TxIn →
      Except Unit ConnectedTx × MemCache × List MemEvent
  | s, ot, [] => (Except.ok ot, s, [])
  | s, ot, input :: rest =>
    match connect_input_mem s ot input with
    | (Except.ok ot', s', ev) =>
        let r := connect_inputs_mem s' ot' rest
        (r.1, r.2.1, ev ++ r.2.2)
    | (Except.error e, s', ev) => (Except.error e, s', ev)

/-- The transaction loop of `connect_outpoints` (in-memory backend): build
each connected transaction from its raw transaction, connect its inputs,
and append it to the block under construction. -/
def connect_txs_mem :
    MemCache → ConnectedBlock → List Transaction →
      Except Unit ConnectedBlock × MemCache × List MemEvent
  | s, ob, [] => (Except.ok ob, s, [])
  | s, ob, tx :: rest =>
    match connect_inputs_mem s (ConnectedTx.fromRaw tx) tx.input with
    | (Except.ok ot, s', ev) =>
        let r := connect_txs_mem s' (ob.add_tx ot) rest
        (r.1, r.2.1, ev ++ r.2.2)
    | (Except.error e, s', ev) => (Except.error e, s', ev)

/-- `connect_outpoints` (in-memory backend, `fetch_connected_async.rs`
lines 113–235): build the connected block shell from the header and its
hash, then run the transaction loop. -/
def connect_outpoints_mem (unspent : MemCache) (block : Block) :
    Except Unit ConnectedBlock × MemCache × List MemEvent :=
  connect_txs_mem unspent
    (ConnectedBlock.fromHeader block.header (block_hash block.header)) block.txdata

/-- `update_unspent_cache` (in-memory backend, `fetch_connected_async.rs`
lines 41–73): fetch the block at `height`; build one `(compressed txid,
slots)` entry per transaction, every output present; under debug assertions
check each key against the map and warn on duplicates (third component:
the warned keys); merge all entries with a single `extend`; return the
fetched block. -/
def update_unspent_cache_mem (dbg : Bool) (unspent : MemCache)
    (get_block : Nat → Except Unit Block) (height : Nat) :
    Except Unit Block × MemCache × List Nat :=
  match get_block height with
  | Except.error _ => (Except.error (), unspent, [])
  | Except.ok block =>
      let new_unspent_cache :=
        block.txdata.map (fun tx => (compress tx.txid, tx.output.map some))
      let warns :=
        if dbg then
          (block.txdata.filter (fun tx => (unspent (compress tx.txid)).isSome)).map
            (fun tx => compress tx.txid)
        else []
      (Except.ok block, FMap.extend unspent new_unspent_cache, warns)

/-- Little-endian byte list of a machine integer of `k` bytes
(`to_ne_bytes` on the little-endian platforms the crate targets);
truncates to `k` bytes, matching fixed-width integer semantics. -/
def nat_to_le_bytes : Nat → Nat → List Nat
  | 0, _ => []
  | k + 1, x => x % 256 :: nat_to_le_bytes k (x / 256)

/-- Value of a little-endian byte list. -/
def le_val : List Nat → Nat
  | [] => 0
  | b :: rest => b + 256 * le_val rest

/-- A RocksDB key, a byte string. -/
abbrev DiskKey := List Nat

/-- `txo_key` (`fetch_connected_async.rs` lines 237–243): 16-byte
compressed txid followed by the 4-byte output index, fixed native byte
order. -/
def txo_key (txid_compressed : Nat) (n : Nat) : DiskKey :=
  nat_to_le_bytes 16 txid_compressed ++ nat_to_le_bytes 4 n

/-- Modelled from the spec: Bitcoin's variable-length integer used by the
canonical consensus serialization of an output's script length (the codec
itself lives in the external `bitcoin` crate). -/
def varint_encode (n : Nat) : List Nat :=
  if n < 253 then [n]
  else if n < 2 ^ 16 then 253 :: nat_to_le_bytes 2 n
  else if n < 2 ^ 32 then 254 :: nat_to_le_bytes 4 n
  else 255 :: nat_to_le_bytes 8 n

/-- Read `k` little-endian bytes off the front of a byte string. -/
def read_le (k : Nat) (bytes : List Nat) : Option (Nat × List Nat) :=
  if bytes.length < k then none
  else some (le_val (bytes.take k), bytes.drop k)

/-- Modelled from the spec: decoding of the variable-length integer. -/
def varint_decode : List Nat → Option (Nat × List Nat)
  | [] => none
  | b :: rest =>
    if b < 253 then some (b, rest)
    else if b = 253 then read_le 2 rest
    else if b = 254 then read_le 4 rest
    else read_le 8 rest

/-- `txo_to_u8` (`fetch_connected_async.rs` lines 245–251); the consensus
encoding it delegates to is modelled from the spec ("values are the
canonical serialized form of one output"): 8-byte little-endian amount,
varint script length, script bytes. -/
def txo_to_u8 (txo : TxOut) : List Nat :=
  nat_to_le_bytes 8 txo.value ++ varint_encode txo.script_pubkey.length ++ txo.script_pubkey

/-- `txo_from_u8` (`fetch_connected_async.rs` lines 253–260); the consensus
decoding is modelled from the spec: parse the amount, the script length and
the script, failing on truncated input. -/
def txo_from_u8 (bytes : List Nat) : Option TxOut :=
  match read_le 8 bytes with
  | none => none
  | some (value, rest) =>
    match varint_decode rest with
    | none => none
    | some (len, rest2) =>
      if rest2.length < len then none
      else some ⟨value, rest2.take len⟩

/-- Modelled from the spec: the RocksDB scratch store — its key/value
content plus a fault model: which keys fail to read (`multi_get` slot
`Err`), which fail to delete, and whether a batched write fails.  The
store's own concurrency control is out of scope; operations are modelled
sequentially. -/
structure DiskDB where
  data : FMap DiskKey (List Nat)
  read_fail : DiskKey → Bool
  delete_fail : DiskKey → Bool
  write_fail : Bool

/-- One slot of `DB::multi_get`: `Err` under the fault model, otherwise the
stored value if any. -/
def DiskDB.multi_get_one (db : DiskDB) (k : DiskKey) : Except Unit (Option (List Nat)) :=
  if db.read_fail k then Except.error () else Except.ok (db.data k)

/-- `DB::delete` of one key, leaving the store untouched on failure. -/
def DiskDB.deleteKey (db : DiskDB) (k : DiskKey) : DiskDB :=
  { db with data := FMap.erase k db.data }

/-- The key-collection loop over one transaction's inputs
(`fetch_connected_async.rs` lines 131–143): the null outpoint is skipped,
every other input contributes its `txo_key`. -/
def collect_keys_tx : List TxIn → List DiskKey
  | [] => []
  | input :: rest =>
    if input.previous_output.is_null then collect_keys_tx rest
    else
      txo_key (compress input.previous_output.txid) input.previous_output.vout ::
        collect_keys_tx rest

/-- The key-collection loop over the whole block. -/
def collect_keys (block : Block) : List DiskKey :=
  block.txdata.flatMap (fun tx => collect_keys_tx tx.input)

/-- The delete loop (`fetch_connected_async.rs` lines 150–159): delete each
key in order; the first failing delete aborts with the deletes so far kept. -/
def delete_keys : DiskDB → List DiskKey → Except Unit Unit × DiskDB
  | db, [] => (Except.ok (), db)
  | db, k :: rest =>
    if db.delete_fail k then (Except.error (), db)
    else delete_keys (db.deleteKey k) rest

/-- The `match` on a `multi_get` result slot (`fetch_connected_async.rs`
lines 190–197): a read error or a missing value is `None`; a present value
is decoded, itself possibly failing. -/
def resolve_bytes : Except Unit (Option (List Nat)) → Option TxOut
  | Except.ok (some bytes) => txo_from_u8 bytes
  | _ => none

/-- Resolution events of the disk backend, recorded for each non-null
input examined. -/
inductive DiskEvent where
  | resolved (o : OutPoint) (out : TxOut)
  | missing (o : OutPoint)
deriving DecidableEq

/-- The resolved output carried by a `resolved` event. -/
def DiskEvent.value : DiskEvent → Option TxOut
  | .resolved _ out => some out
  | .missing _ => none

/-- The input loop of one transaction (disk backend,
`fetch_connected_async.rs` lines 169–231): null outpoints are skipped;
otherwise the slot at the running position `pos` of the `multi_get` result
list is resolved, `pos` advancing only on success (failure aborts at once).
The source's `tx_outs.get(pos).unwrap()` indexes in bounds by construction;
out of range is represented by the error slot, which resolves to `none`. -/
def connect_inputs_disk (tx_outs : List (Except Unit (Option (List Nat)))) :
    ConnectedTx → Nat → List TxIn →
      Except Unit (ConnectedTx × Nat) × List DiskEvent
  | ot, pos, [] => (Except.ok (ot, pos), [])
  | ot, pos, input :: rest =>
    if input.previous_output.is_null then
      connect_inputs_disk tx_outs ot pos rest
    else
      match resolve_bytes (tx_outs.getD pos (Except.error ())) with
      | some out =>
          let r := connect_inputs_disk tx_outs (ot.add_input out) (pos + 1) rest
          (r.1, DiskEvent.resolved input.previous_output out :: r.2)
      | none => (Except.error (), [DiskEvent.missing input.previous_output])

/-- The transaction loop of `connect_outpoints` (disk backend). -/
def connect_txs_disk (tx_outs : List (Except Unit (Option (List Nat)))) :
    ConnectedBlock → Nat → List Transaction →
      Except Unit ConnectedBlock × List DiskEvent
  | ob, _, [] => (Except.ok ob, [])
  | ob, pos, tx :: rest =>
    match connect_inputs_disk tx_outs (ConnectedTx.fromRaw tx) pos tx.input with
    | (Except.ok (ot, pos'), ev) =>
        let r := connect_txs_disk tx_outs (ob.add_tx ot) pos' rest
        (r.1, ev ++ r.2)
    | (Except.error e, ev) => (Except.error e, ev)

/-- `connect_outpoints` (disk backend, `fetch_connected_async.rs` lines
113–235): collect the keys of all non-null outpoints, resolve them with one
batched `multi_get`, then delete every key (a failed delete aborting the
whole call), and only then walk the transactions resolving each input from
the pre-delete `multi_get` snapshot. -/
def connect_outpoints_disk (unspent : DiskDB) (block : Block) :
    Except Unit ConnectedBlock × DiskDB × List DiskEvent :=
  let keys := collect_keys block
  let tx_outs := keys.map unspent.multi_get_one
  match delete_keys unspent keys with
  | (Except.error _, db') => (Except.error (), db', [])
  | (Except.ok _, db') =>
      let r := connect_txs_disk tx_outs
        (ConnectedBlock.fromHeader block.header (block_hash block.header)) 0 block.txdata
      (r.1, db', r.2)

/-- The batch-building loop over one transaction's outputs
(`fetch_connected_async.rs` lines 84–90): a `u32` counter `n` keys each
output in order. -/
def batch_tx_outputs (txid_compressed : Nat) : Nat → List TxOut → List (DiskKey × List Nat)
  | _, [] => []
  | n, o :: rest => (txo_key txid_compressed n, txo_to_u8 o) :: batch_tx_outputs txid_compressed (n + 1) rest

/-- The whole block's write batch, one key/value pair per output. -/
def build_batch (block : Block) : List (DiskKey × List Nat) :=
  block.txdata.flatMap (fun tx => batch_tx_outputs (compress tx.txid) 0 tx.output)

/-- Applying a `WriteBatch`: the puts land in order, atomically. -/
def apply_batch (db : DiskDB) (batch : List (DiskKey × List Nat)) : DiskDB :=
  { db with data := FMap.extend db.data batch }

/-- `update_unspent_cache` (disk backend, `fetch_connected_async.rs` lines
75–102): fetch the block, build one write batch holding every output of
every transaction, write it atomically (failure aborting with the store
untouched), and return the fetched block. -/
def update_unspent_cache_disk (unspent : DiskDB)
    (get_block : Nat → Except Unit Block) (height : Nat) :
    Except Unit Block × DiskDB :=
  match get_block height with
  | Except.error _ => (Except.error (), unspent)
  | Except.ok block =>
      if unspent.write_fail then (Except.error (), unspent)
      else (Except.ok block, apply_batch unspent (build_batch block))

/-- Modelled from the spec: the ordered parallel pipeline engine `ParIter`
(`crate::iter::iter`, not under `src/`) as observed by its consumer — §4.1
and §5 of the spec: results come in input order, identical to a
single-threaded execution, and a failure halts further production
(fail-fast); so the observable output sequence is the results up to the
first error. -/
def par_iter_outputs {α β : Type} (f : α → Except Unit β) : List α → List β
  | [] => []
  | a :: rest =>
    match f a with
    | Except.error _ => []
    | Except.ok b => b :: par_iter_outputs f rest

/-- Modelled from the spec: the two chained stages of
`ConnectedBlockIter::new` (disk backend, `iter_connected.rs` lines
91–114) in their equivalent single-threaded execution (§5: output is
"identical to a hypothetical single-threaded execution"): for each height
in order, stage 1 fetches the block and records its outputs, stage 2
connects it; the first failure of either stage ends the sequence. -/
def run_pipeline_disk (get_block : Nat → Except Unit Block) :
    DiskDB → List Nat → List ConnectedBlock
  | _, [] => []
  | db, h :: rest =>
    match update_unspent_cache_disk db get_block h with
    | (Except.error _, _) => []
    | (Except.ok block, db1) =>
      match connect_outpoints_disk db1 block with
      | (Except.ok cb, db2, _) => cb :: run_pipeline_disk get_block db2 rest
      | (Except.error _, _, _) => []

/-- `ConnectedBlockIter::null` (`iter_connected.rs` lines 117–124): a
`ParIter` over an empty input vector, so its output sequence is empty. -/
def connected_block_iter_null : List ConnectedBlock :=
  par_iter_outputs (fun _ : Nat => (Except.error () : Except Unit ConnectedBlock)) []

/-- `ConnectedBlockIter::new` (disk backend, `iter_connected.rs` lines
35–115), modelled by the sequence of items its `next()` yields: if the
scratch `TempDir` cannot be created, or the RocksDB store cannot be opened
in it, return the null iterator; otherwise run the two-stage pipeline over
the heights `[0, end)`.  The two failure modes are the fault flags. -/
def connected_block_iter_new_disk (tempdir_fail db_open_fail : Bool)
    (db : DiskDB) (get_block : Nat → Except Unit Block) (endh : Nat) :
    List ConnectedBlock :=
  if tempdir_fail then connected_block_iter_null
  else if db_open_fail then connected_block_iter_null
  else run_pipeline_disk get_block db (List.range endh)

/-- The live output held at index `n` of a slot collection, if any. -/
def VecMap.slot (vm : VecMap α) (n : Nat) : Option α :=
  match vm[n]? with
  | some (some v) => some v
  | _ => none

/-- The observable content of one output slot of the in-memory cache:
`some v` when the entry exists and holds a live output at index `n`. -/
def slot_at (m : MemCache) (k n : Nat) : Option TxOut :=
  match m k with
  | none => none
  | some vm => vm.slot n

/-- A disk trace event that witnesses a missed resolution. -/
def DiskEvent.isMiss : DiskEvent → Bool
  | .resolved _ _ => false
  | .missing _ => true

/-! ## Map and slot lemmas -/

theorem FMap.insert_self [DecidableEq κ] (k : κ) (v : α) (m : FMap κ α) :
    FMap.insert k v m k = some v := by
  simp [FMap.insert]

theorem FMap.insert_ne [DecidableEq κ] {k k' : κ} (v : α) (m : FMap κ α) (h : k' ≠ k) :
    FMap.insert k v m k' = m k' := by
  simp [FMap.insert, h]

theorem FMap.erase_self [DecidableEq κ] (k : κ) (m : FMap κ α) :
    FMap.erase k m k = none := by
  simp [FMap.erase]

theorem FMap.erase_ne [DecidableEq κ] {k k' : κ} (m : FMap κ α) (h : k' ≠ k) :
    FMap.erase k m k' = m k' := by
  simp [FMap.erase, h]

theorem FMap.extend_cons [DecidableEq κ] (m : FMap κ α) (kv : κ × α) (l : List (κ × α)) :
    FMap.extend m (kv :: l) = FMap.extend (FMap.insert kv.1 kv.2 m) l := by
  simp [FMap.extend]

theorem FMap.extend_of_not_mem [DecidableEq κ] {k : κ} (l : List (κ × α)) (m : FMap κ α)
    (h : k ∉ l.map Prod.fst) : FMap.extend m l k = m k := by
  induction l generalizing m with
  | nil => rfl
  | cons kv rest ih =>
      simp only [List.map_cons, List.mem_cons, not_or] at h
      rw [FMap.extend_cons, ih _ h.2, FMap.insert_ne _ _ h.1]

theorem FMap.extend_of_mem [DecidableEq κ] {k : κ} {v : α} (l : List (κ × α)) (m : FMap κ α)
    (hmem : (k, v) ∈ l) (hnd : (l.map Prod.fst).Nodup) : FMap.extend m l k = some v := by
  induction l generalizing m with
  | nil => cases hmem
  | cons kv rest ih =>
      simp only [List.map_cons, List.nodup_cons] at hnd
      rw [FMap.extend_cons]
      rcases List.mem_cons.mp hmem with heq | hrest
      · have hk : k = kv.1 := by rw [← heq]
        have : k ∉ rest.map Prod.fst := by rw [hk]; exact hnd.1
        rw [FMap.extend_of_not_mem _ _ this, hk, ← heq, FMap.insert_self]
      · exact ih _ hrest hnd.2

theorem VecMap.slot_set_none {vm : VecMap α} {j : Nat} (i : Nat)
    (h : VecMap.slot vm j = none) : VecMap.slot (vm.set i none) j = none := by
  by_cases hij : i = j
  · subst hij
    simp only [VecMap.slot, List.getElem?_set_self']
    rcases vm[i]? with _ | val <;> rfl
  · simp only [VecMap.slot, List.getElem?_set_ne hij]
    exact h

theorem VecMap.slot_set_self (vm : VecMap α) (n : Nat) :
    VecMap.slot (vm.set n none) n = none := by
  simp only [VecMap.slot, List.getElem?_set_self']
  rcases vm[n]? with _ | val <;> rfl

theorem VecMap.slot_remove_self (vm : VecMap α) (n : Nat) :
    VecMap.slot (VecMap.remove vm n).2 n = none := by
  unfold VecMap.remove
  rcases h : vm[n]? with _ | val
  · simp [VecMap.slot, h]
  · rcases val with _ | v
    · simp [VecMap.slot, h]
    · simp only [h]
      exact VecMap.slot_set_self vm n

theorem VecMap.slot_remove (vm : VecMap α) (i : Nat) {j : Nat}
    (h : VecMap.slot vm j = none) : VecMap.slot (VecMap.remove vm i).2 j = none := by
  unfold VecMap.remove
  rcases hg : vm[i]? with _ | val
  · exact h
  · rcases val with _ | v
    · exact h
    · exact VecMap.slot_set_none i h

/-! ## Step lemmas for the in-memory connector -/

theorem connect_input_mem_null (s : MemCache) (ot : ConnectedTx) {input : TxIn}
    (h : input.previous_output.is_null = true) :
    connect_input_mem s ot input = (Except.ok ot, s, []) := by
  simp [connect_input_mem, h]

theorem connect_input_mem_not_found (s : MemCache) (ot : ConnectedTx) {input : TxIn}
    (h : input.previous_output.is_null = false)
    (hl : s (compress input.previous_output.txid) = none) :
    connect_input_mem s ot input =
      (Except.error (), s, [MemEvent.lookup (compress input.previous_output.txid) false]) := by
  simp [connect_input_mem, h, hl]

theorem connect_input_mem_found (s : MemCache) (ot : ConnectedTx) {input : TxIn}
    {vm : VecMap TxOut}
    (h : input.previous_output.is_null = false)
    (hl : s (compress input.previous_output.txid) = some vm) :
    connect_input_mem s ot input =
      (match (VecMap.remove vm input.previous_output.vout).1 with
       | some out => Except.ok (ot.add_input out)
       | none => Except.error (),
       (if VecMap.is_empty (VecMap.remove vm input.previous_output.vout).2 then
          FMap.erase (compress input.previous_output.txid) s
        else
          FMap.insert (compress input.previous_output.txid)
            (VecMap.remove vm input.previous_output.vout).2 s),
       MemEvent.lookup (compress input.previous_output.txid) true ::
         MemEvent.remove_slot (compress input.previous_output.txid)
           input.previous_output.vout (VecMap.remove vm input.previous_output.vout).1 ::
           (if VecMap.is_empty (VecMap.remove vm input.previous_output.vout).2 then
              [MemEvent.remove_entry (compress input.previous_output.txid)]
            else [])) := by
  simp only [connect_input_mem, h, Bool.false_eq_true, if_false, hl]
  rcases (VecMap.remove vm input.previous_output.vout).1 with _ | out <;> rfl

theorem connect_input_mem_ok_events {s : MemCache} {ot : ConnectedTx} {input : TxIn}
    {ot' : ConnectedTx} {s' : MemCache} {ev : List MemEvent}
    (h : connect_input_mem s ot input = (Except.ok ot', s', ev)) :
    ∀ e ∈ ev, e.isMiss = false := by
  rcases hnull : input.previous_output.is_null with _ | _
  · rcases hl : s (compress input.previous_output.txid) with _ | vm
    · rw [connect_input_mem_not_found s ot hnull hl] at h
      simp at h
    · rw [connect_input_mem_found s ot hnull hl] at h
      rcases hr : (VecMap.remove vm input.previous_output.vout).1 with _ | out
      · rw [hr] at h
        simp at h
      · rw [hr] at h
        have hev : ev = MemEvent.lookup (compress input.previous_output.txid) true ::
            MemEvent.remove_slot (compress input.previous_output.txid)
              input.previous_output.vout (some out) ::
              (if VecMap.is_empty (VecMap.remove vm input.previous_output.vout).2 then
                [MemEvent.remove_entry (compress input.previous_output.txid)] else []) := by
          have := congrArg (fun p => p.2.2) h
          simpa using this.symm
        subst hev
        intro e he
        rcases List.mem_cons.mp he with rfl | he
        · rfl
        rcases List.mem_cons.mp he with rfl | he
        · rfl
        rcases hemp : VecMap.is_empty (VecMap.remove vm input.previous_output.vout).2 with _ | _
        · rw [hemp] at he
          simp at he
        · rw [hemp] at he
          simp at he
          subst he
          rfl
  · rw [connect_input_mem_null s ot hnull] at h
    have hev : ev = [] := by
      have := congrArg (fun p => p.2.2) h
      simpa using this.symm
    subst hev
    intro e he
    simp at he

theorem connect_inputs_mem_ok_events :
    ∀ (ins : List TxIn) (s : MemCache) (ot : ConnectedTx) (ot' : ConnectedTx)
      (s' : MemCache) (tr : List MemEvent),
      connect_inputs_mem s ot ins = (Except.ok ot', s', tr) →
      ∀ e ∈ tr, e.isMiss = false
  | [], s, ot, ot', s', tr, h => by
      simp only [connect_inputs_mem] at h
      have hev : tr = [] := by
        have := congrArg (fun p => p.2.2) h
        simpa using this.symm
      subst hev
      intro e he
      simp at he
  | input :: rest, s, ot, ot', s', tr, h => by
      rcases hstep : connect_input_mem s ot input with ⟨r1, s1, ev⟩
      rcases r1 with e1 | ot1
      · simp only [connect_inputs_mem, hstep] at h
        simp at h
      · simp only [connect_inputs_mem, hstep] at h
        have hev : tr = ev ++ (connect_inputs_mem s1 ot1 rest).2.2 := by
          have := congrArg (fun p => p.2.2) h
          simpa using this.symm
        subst hev
        intro e he
        rcases List.mem_append.mp he with he | he
        · exact connect_input_mem_ok_events hstep e he
        · have hr : connect_inputs_mem s1 ot1 rest =
              ((connect_inputs_mem s1 ot1 rest).1, (connect_inputs_mem s1 ot1 rest).2.1,
                (connect_inputs_mem s1 ot1 rest).2.2) := rfl
          have h1 : (connect_inputs_mem s1 ot1 rest).1 = Except.ok ot' := by
            have := congrArg (fun p => p.1) h
            simpa using this
          exact connect_inputs_mem_ok_events rest s1 ot1 ot'
            (connect_inputs_mem s1 ot1 rest).2.1 (connect_inputs_mem s1 ot1 rest).2.2
            (by rw [← h1]) e he

theorem connect_inputs_mem_miss :
    ∀ (ins : List TxIn) (s : MemCache) (ot : ConnectedTx),
      (∃ e ∈ (connect_inputs_mem s ot ins).2.2, e.isMiss = true) →
      (connect_inputs_mem s ot ins).1 = Except.error ()
  | [], s, ot => by
      rintro ⟨e, he, _⟩
      simp [connect_inputs_mem] at he
  | input :: rest, s, ot => by
      rcases hstep : connect_input_mem s ot input with ⟨r1, s1, ev⟩
      rcases r1 with e1 | ot1
      · cases e1
        simp only [connect_inputs_mem, hstep]
        intro _
        trivial
      · simp only [connect_inputs_mem, hstep]
        rintro ⟨e, he, hmiss⟩
        rcases List.mem_append.mp he with he | he
        · have := connect_input_mem_ok_events hstep e he
          rw [this] at hmiss
          cases hmiss
        · exact connect_inputs_mem_miss rest s1 ot1 ⟨e, he, hmiss⟩

theorem connect_txs_mem_ok_events :
    ∀ (txs : List Transaction) (s : MemCache) (ob : ConnectedBlock) (cb : ConnectedBlock)
      (s' : MemCache) (tr : List MemEvent),
      connect_txs_mem s ob txs = (Except.ok cb, s', tr) →
      ∀ e ∈ tr, e.isMiss = false
  | [], s, ob, cb, s', tr, h => by
      simp only [connect_txs_mem] at h
      have hev : tr = [] := by
        have := congrArg (fun p => p.2.2) h
        simpa using this.symm
      subst hev
      intro e he
      simp at he
  | tx :: rest, s, ob, cb, s', tr, h => by
      rcases hstep : connect_inputs_mem s (ConnectedTx.fromRaw tx) tx.input with ⟨r1, s1, ev⟩
      rcases r1 with e1 | ot1
      · simp only [connect_txs_mem, hstep] at h
        simp at h
      · simp only [connect_txs_mem, hstep] at h
        have hev : tr = ev ++ (connect_txs_mem s1 (ob.add_tx ot1) rest).2.2 := by
          have := congrArg (fun p => p.2.2) h
          simpa using this.symm
        subst hev
        intro e he
        rcases List.mem_append.mp he with he | he
        · exact connect_inputs_mem_ok_events tx.input s (ConnectedTx.fromRaw tx) ot1 s1 ev hstep e he
        · have h1 : (connect_txs_mem s1 (ob.add_tx ot1) rest).1 = Except.ok cb := by
            have := congrArg (fun p => p.1) h
            simpa using this
          exact connect_txs_mem_ok_events rest s1 (ob.add_tx ot1) cb
            (connect_txs_mem s1 (ob.add_tx ot1) rest).2.1
            (connect_txs_mem s1 (ob.add_tx ot1) rest).2.2 (by rw [← h1]) e he

theorem connect_txs_mem_miss :
    ∀ (txs : List Transaction) (s : MemCache) (ob : ConnectedBlock),
      (∃ e ∈ (connect_txs_mem s ob txs).2.2, e.isMiss = true) →
      (connect_txs_mem s ob txs).1 = Except.error ()
  | [], s, ob => by
      rintro ⟨e, he, _⟩
      simp [connect_txs_mem] at he
  | tx :: rest, s, ob => by
      rcases hstep : connect_inputs_mem s (ConnectedTx.fromRaw tx) tx.input with ⟨r1, s1, ev⟩
      rcases r1 with e1 | ot1
      · cases e1
        simp only [connect_txs_mem, hstep]
        intro _
        trivial
      · simp only [connect_txs_mem, hstep]
        rintro ⟨e, he, hmiss⟩
        rcases List.mem_append.mp he with he | he
        · have := connect_inputs_mem_ok_events tx.input s (ConnectedTx.fromRaw tx) ot1 s1 ev hstep e he
          rw [this] at hmiss
          cases hmiss
        · exact connect_txs_mem_miss rest s1 (ob.add_tx ot1) ⟨e, he, hmiss⟩

/-! ## Step lemmas for the disk connector -/

theorem connect_inputs_disk_ok_events :
    ∀ (ins : List TxIn) (tx_outs : List (Except Unit (Option (List Nat))))
      (ot : ConnectedTx) (pos : Nat) (p : ConnectedTx × Nat) (ev : List DiskEvent),
      connect_inputs_disk tx_outs ot pos ins = (Except.ok p, ev) →
      ∀ e ∈ ev, e.isMiss = false
  | [], tx_outs, ot, pos, p, ev, h => by
      simp only [connect_inputs_disk] at h
      have hev : ev = [] := by
        have := congrArg (fun q => q.2) h
        simpa using this.symm
      subst hev
      intro e he
      simp at he
  | input :: rest, tx_outs, ot, pos, p, ev, h => by
      rcases hnull : input.previous_output.is_null with _ | _
      · rcases hres : resolve_bytes (tx_outs.getD pos (Except.error ())) with _ | out
        · simp only [connect_inputs_disk, hnull, Bool.false_eq_true, if_false, hres] at h
          simp at h
        · simp only [connect_inputs_disk, hnull, Bool.false_eq_true, if_false, hres] at h
          have hev : ev = DiskEvent.resolved input.previous_output out ::
              (connect_inputs_disk tx_outs (ot.add_input out) (pos + 1) rest).2 := by
            have := congrArg (fun q => q.2) h
            simpa using this.symm
          subst hev
          intro e he
          rcases List.mem_cons.mp he with rfl | he
          · rfl
          · have h1 : (connect_inputs_disk tx_outs (ot.add_input out) (pos + 1) rest).1 =
                Except.ok p := by
              have := congrArg (fun q => q.1) h
              simpa using this
            exact connect_inputs_disk_ok_events rest tx_outs (ot.add_input out) (pos + 1) p
              (connect_inputs_disk tx_outs (ot.add_input out) (pos + 1) rest).2
              (by rw [← h1]) e he
      · simp only [connect_inputs_disk, hnull, if_true] at h
        exact connect_inputs_disk_ok_events rest tx_outs ot pos p ev h

theorem connect_inputs_disk_miss :
    ∀ (ins : List TxIn) (tx_outs : List (Except Unit (Option (List Nat))))
      (ot : ConnectedTx) (pos : Nat),
      (∃ e ∈ (connect_inputs_disk tx_outs ot pos ins).2, e.isMiss = true) →
      (connect_inputs_disk tx_outs ot pos ins).1 = Except.error ()
  | [], tx_outs, ot, pos => by
      rintro ⟨e, he, _⟩
      simp [connect_inputs_disk] at he
  | input :: rest, tx_outs, ot, pos => by
      rcases hnull : input.previous_output.is_null with _ | _
      · rcases hres : resolve_bytes (tx_outs.getD pos (Except.error ())) with _ | out
        · simp only [connect_inputs_disk, hnull, Bool.false_eq_true, if_false, hres]
          intro _
          trivial
        · simp only [connect_inputs_disk, hnull, Bool.false_eq_true, if_false, hres]
          rintro ⟨e, he, hmiss⟩
          rcases List.mem_cons.mp he with rfl | he
          · cases hmiss
          · exact connect_inputs_disk_miss rest tx_outs (ot.add_input out) (pos + 1) ⟨e, he, hmiss⟩
      · simp only [connect_inputs_disk, hnull, if_true]
        exact connect_inputs_disk_miss rest tx_outs ot pos

theorem connect_txs_disk_miss :
    ∀ (txs : List Transaction) (tx_outs : List (Except Unit (Option (List Nat))))
      (ob : ConnectedBlock) (pos : Nat),
      (∃ e ∈ (connect_txs_disk tx_outs ob pos txs).2, e.isMiss = true) →
      (connect_txs_disk tx_outs ob pos txs).1 = Except.error ()
  | [], tx_outs, ob, pos => by
      rintro ⟨e, he, _⟩
      simp [connect_txs_disk] at he
  | tx :: rest, tx_outs, ob, pos => by
      rcases hstep : connect_inputs_disk tx_outs (ConnectedTx.fromRaw tx) pos tx.input
        with ⟨r1, ev⟩
      rcases r1 with e1 | p1
      · cases e1
        simp only [connect_txs_disk, hstep]
        intro _
        trivial
      · rcases p1 with ⟨ot1, pos1⟩
        simp only [connect_txs_disk, hstep]
        rintro ⟨e, he, hmiss⟩
        rcases List.mem_append.mp he with he | he
        · have := connect_inputs_disk_ok_events tx.input tx_outs (ConnectedTx.fromRaw tx) pos
            (ot1, pos1) ev hstep e he
          rw [this] at hmiss
          cases hmiss
        · exact connect_txs_disk_miss rest tx_outs (ob.add_tx ot1) pos1 ⟨e, he, hmiss⟩

/-! ## Claim C1 -/

/-- C1: for every block and every non-coinbase input, if the referenced
previous output is absent at resolution time — in-memory: no map entry for
the compressed txid or an absent slot at that index (a `miss` trace event);
disk: the multi-get slot yields no value or an undecodable value (a
`missing` trace event) — then `connect_outpoints` returns an error for the
block rather than producing a connected block, for both backends. -/
theorem C1_missing_prev_output_is_fatal :
    (∀ (unspent : MemCache) (block : Block),
      (∃ e ∈ (connect_outpoints_mem unspent block).2.2, e.isMiss = true) →
      (connect_outpoints_mem unspent block).1 = Except.error ()) ∧
    (∀ (unspent : DiskDB) (block : Block),
      (∃ e ∈ (connect_outpoints_disk unspent block).2.2, e.isMiss = true) →
      (connect_outpoints_disk unspent block).1 = Except.error ()) := by
  constructor
  · intro unspent block h
    exact connect_txs_mem_miss block.txdata unspent _ h
  · intro unspent block h
    simp only [connect_outpoints_disk] at h ⊢
    rcases hdel : delete_keys unspent (collect_keys block) with ⟨d1, db'⟩
    rcases d1 with u | u
    · simp only [hdel] at h
      simp at h
    · simp only [hdel] at h ⊢
      exact connect_txs_disk_miss block.txdata _ _ 0 h

/-- Witness for C1: a block spending the outpoint `(txid 1, vout 0)`
against an empty cache misses, and both backends return an error. -/
theorem C1_missing_prev_output_is_fatal_witness :
    ((∃ e ∈ (connect_outpoints_mem (fun _ => none)
        ⟨0, [⟨5, [⟨⟨1, 0⟩⟩], []⟩]⟩).2.2, e.isMiss = true) ∧
      (connect_outpoints_mem (fun _ => none) ⟨0, [⟨5, [⟨⟨1, 0⟩⟩], []⟩]⟩).1 =
        Except.error ()) ∧
    ((∃ e ∈ (connect_outpoints_disk ⟨fun _ => none, fun _ => false, fun _ => false, false⟩
        ⟨0, [⟨5, [⟨⟨1, 0⟩⟩], []⟩]⟩).2.2, e.isMiss = true) ∧
      (connect_outpoints_disk ⟨fun _ => none, fun _ => false, fun _ => false, false⟩
        ⟨0, [⟨5, [⟨⟨1, 0⟩⟩], []⟩]⟩).1 = Except.error ()) :=
  ⟨⟨by decide, C1_missing_prev_output_is_fatal.1 _ _ (by decide)⟩,
    ⟨by decide, C1_missing_prev_output_is_fatal.2 _ _ (by decide)⟩⟩

/-! ## Claim C2 -/

/-- C2: an input whose `previous_output` is the null outpoint causes no
cache access: in the in-memory backend the per-input step leaves the cache
untouched and emits no lookup/lock/removal event; in the disk backend the
key-collection loop contributes keys only for non-null inputs, and the
resolution loop passes a null input through without consuming a multi-get
slot or emitting an event — for a null input at any position. -/
theorem C2_null_outpoint_no_cache_access :
    (∀ (s : MemCache) (ot : ConnectedTx) (input : TxIn),
      input.previous_output.is_null = true →
      connect_input_mem s ot input = (Except.ok ot, s, [])) ∧
    (∀ ins : List TxIn,
      collect_keys_tx ins =
        (ins.filter (fun i => !i.previous_output.is_null)).map
          (fun i => txo_key (compress i.previous_output.txid) i.previous_output.vout)) ∧
    (∀ (tx_outs : List (Except Unit (Option (List Nat)))) (ot : ConnectedTx) (pos : Nat)
      (input : TxIn) (rest : List TxIn),
      input.previous_output.is_null = true →
      connect_inputs_disk tx_outs ot pos (input :: rest) =
        connect_inputs_disk tx_outs ot pos rest) := by
  refine ⟨fun s ot input h => connect_input_mem_null s ot h, ?_, ?_⟩
  · intro ins
    induction ins with
    | nil => rfl
    | cons input rest ih =>
        rcases hnull : input.previous_output.is_null with _ | _
        · simp [collect_keys_tx, hnull, List.filter_cons, ih]
        · simp [collect_keys_tx, hnull, List.filter_cons, ih]
  · intro tx_outs ot pos input rest h
    simp [connect_inputs_disk, h]

/-- Witness for C2 at the null outpoint `(txid 0, vout u32::MAX)`. -/
theorem C2_null_outpoint_no_cache_access_witness :
    (⟨⟨0, 4294967295⟩⟩ : TxIn).previous_output.is_null = true ∧
    connect_input_mem (fun _ => none) ⟨⟨7, [], []⟩, []⟩ ⟨⟨0, 4294967295⟩⟩ =
      (Except.ok ⟨⟨7, [], []⟩, []⟩, (fun _ => none : MemCache), []) ∧
    collect_keys_tx [⟨⟨0, 4294967295⟩⟩, ⟨⟨1, 0⟩⟩] =
      (([⟨⟨0, 4294967295⟩⟩, ⟨⟨1, 0⟩⟩] : List TxIn).filter
        (fun i => !i.previous_output.is_null)).map
          (fun i => txo_key (compress i.previous_output.txid) i.previous_output.vout) ∧
    connect_inputs_disk [] ⟨⟨7, [], []⟩, []⟩ 0 [⟨⟨0, 4294967295⟩⟩] =
      connect_inputs_disk [] ⟨⟨7, [], []⟩, []⟩ 0 [] :=
  ⟨by decide,
    C2_null_outpoint_no_cache_access.1 _ _ _ (by decide),
    C2_null_outpoint_no_cache_access.2.1 _,
    C2_null_outpoint_no_cache_access.2.2 _ _ _ _ _ (by decide)⟩

/-! ## Claim C4 -/

/-- C4: in the in-memory backend, after the remove-slot operation performed
for any non-coinbase input, the entry under that input's compressed txid
either is gone from the map or still has at least one live slot: an entry
whose slots became all absent never survives the operation. -/
theorem C4_emptied_entry_purged (s : MemCache) (ot : ConnectedTx) (input : TxIn)
    (h : input.previous_output.is_null = false) :
    (connect_input_mem s ot input).2.1 (compress input.previous_output.txid) = none ∨
    ∃ vm, (connect_input_mem s ot input).2.1 (compress input.previous_output.txid) = some vm ∧
      VecMap.is_empty vm = false := by
  rcases hl : s (compress input.previous_output.txid) with _ | vm
  · rw [connect_input_mem_not_found s ot h hl]
    exact Or.inl hl
  · rw [connect_input_mem_found s ot h hl]
    rcases hemp : VecMap.is_empty (VecMap.remove vm input.previous_output.vout).2 with _ | _
    · refine Or.inr ⟨(VecMap.remove vm input.previous_output.vout).2, ?_, hemp⟩
      simp only [hemp, Bool.false_eq_true, if_false]
      exact FMap.insert_self _ _ _
    · refine Or.inl ?_
      simp only [hemp, if_true]
      exact FMap.erase_self _ _

/-- Witness for C4: spending the only live slot of an entry purges it. -/
theorem C4_emptied_entry_purged_witness :
    (⟨⟨1, 0⟩⟩ : TxIn).previous_output.is_null = false ∧
    ((connect_input_mem (FMap.insert (compress 1) [some ⟨50, []⟩] (fun _ => none))
        ⟨⟨7, [], []⟩, []⟩ ⟨⟨1, 0⟩⟩).2.1 (compress 1) = none ∨
      ∃ vm, (connect_input_mem (FMap.insert (compress 1) [some ⟨50, []⟩] (fun _ => none))
        ⟨⟨7, [], []⟩, []⟩ ⟨⟨1, 0⟩⟩).2.1 (compress 1) = some vm ∧
        VecMap.is_empty vm = false) :=
  ⟨by decide, C4_emptied_entry_purged _ _ _ (by decide)⟩

/-! ## Claim C6 -/

/-- C6: for the disk backend, when `ConnectedBlockIter::new` fails to
create the scratch directory or to open the store, it returns the null
iterator, whose `next()` yields nothing (the empty output sequence), for
every `end` value; by return value alone this equals constructing over the
empty height range `end = 0`. -/
theorem C6_construction_failure_empty_iterator :
    (∀ (tempdir_fail db_open_fail : Bool) (db : DiskDB)
      (get_block : Nat → Except Unit Block) (endh : Nat),
      (tempdir_fail = true ∨ db_open_fail = true) →
      connected_block_iter_new_disk tempdir_fail db_open_fail db get_block endh = []) ∧
    connected_block_iter_null = [] ∧
    (∀ (db : DiskDB) (get_block : Nat → Except Unit Block),
      connected_block_iter_new_disk false false db get_block 0 = []) := by
  refine ⟨?_, rfl, ?_⟩
  · rintro tf dof db gb endh (rfl | rfl)
    · rfl
    · cases tf <;> rfl
  · intro db gb
    rfl

/-- Witness for C6: a failed `TempDir` creation yields the empty sequence
for `end = 42`, equal to a successful construction over `end = 0`. -/
theorem C6_construction_failure_empty_iterator_witness :
    connected_block_iter_new_disk true false
        ⟨fun _ => none, fun _ => false, fun _ => false, false⟩ (fun _ => Except.error ()) 42 =
      [] ∧
    connected_block_iter_new_disk false false
        ⟨fun _ => none, fun _ => false, fun _ => false, false⟩ (fun _ => Except.error ()) 0 =
      [] :=
  ⟨C6_construction_failure_empty_iterator.1 true false _ _ 42 (Or.inl rfl),
    C6_construction_failure_empty_iterator.2.2 _ _⟩

/-! ## Claim C7 -/

theorem delete_keys_delete_fail_preserved (db : DiskDB) (k : DiskKey) :
    (db.deleteKey k).delete_fail = db.delete_fail := rfl

theorem delete_keys_fails :
    ∀ (keys : List DiskKey) (db : DiskDB),
      (∃ k ∈ keys, db.delete_fail k = true) →
      ∃ db', delete_keys db keys = (Except.error (), db')
  | [], db => by
      rintro ⟨k, hk, _⟩
      simp at hk
  | k0 :: rest, db => by
      rintro ⟨k, hk, hfail⟩
      rcases h0 : db.delete_fail k0 with _ | _
      · rcases List.mem_cons.mp hk with rfl | hk
        · rw [h0] at hfail
          cases hfail
        · have := delete_keys_fails rest (db.deleteKey k0) ⟨k, hk, hfail⟩
          rcases this with ⟨db', hdb'⟩
          refine ⟨db', ?_⟩
          simp only [delete_keys, h0, Bool.false_eq_true, if_false]
          exact hdb'
      · refine ⟨db, ?_⟩
        simp [delete_keys, h0]

/-- C7: in the disk backend of `connect_outpoints`, a failed read is
treated as not-found — a multi-get error slot resolves exactly like a
present-but-missing value, feeding the same missing-output path — while a
failed delete is fatal at once: if any collected key's delete fails, the
call returns an error with an empty resolution trace, i.e. before any
input of the block has been resolved. -/
theorem C7_read_error_not_found_delete_error_fatal :
    (∀ (db : DiskDB) (k : DiskKey), db.read_fail k = true →
      db.multi_get_one k = Except.error () ∧
      resolve_bytes (db.multi_get_one k) = resolve_bytes (Except.ok none)) ∧
    (∀ (db : DiskDB) (block : Block),
      (∃ k ∈ collect_keys block, db.delete_fail k = true) →
      (connect_outpoints_disk db block).1 = Except.error () ∧
      (connect_outpoints_disk db block).2.2 = []) := by
  constructor
  · intro db k h
    constructor
    · simp [DiskDB.multi_get_one, h]
    · simp [DiskDB.multi_get_one, h, resolve_bytes]
  · intro db block h
    rcases delete_keys_fails (collect_keys block) db h with ⟨db', hdel⟩
    constructor
    · simp only [connect_outpoints_disk, hdel]
    · simp only [connect_outpoints_disk, hdel]

/-- Witness for C7: a read-failing key resolves as not-found, and a block
whose only referenced key fails to delete makes the call fail with no
resolution trace. -/
theorem C7_read_error_not_found_delete_error_fatal_witness :
    ((⟨fun _ => none, fun _ => true, fun _ => false, false⟩ : DiskDB).read_fail
        (txo_key 1 0) = true ∧
      (⟨fun _ => none, fun _ => true, fun _ => false, false⟩ : DiskDB).multi_get_one
        (txo_key 1 0) = Except.error ()) ∧
    ((connect_outpoints_disk ⟨fun _ => none, fun _ => false, fun _ => true, false⟩
        ⟨0, [⟨5, [⟨⟨1, 0⟩⟩], []⟩]⟩).1 = Except.error () ∧
      (connect_outpoints_disk ⟨fun _ => none, fun _ => false, fun _ => true, false⟩
        ⟨0, [⟨5, [⟨⟨1, 0⟩⟩], []⟩]⟩).2.2 = []) :=
  ⟨⟨by decide,
      (C7_read_error_not_found_delete_error_fatal.1 _ _ (by decide)).1⟩,
    C7_read_error_not_found_delete_error_fatal.2 _ _ (by decide)⟩

/-! ## Byte-encoding lemmas -/

theorem nat_to_le_bytes_length : ∀ (k x : Nat), (nat_to_le_bytes k x).length = k
  | 0, _ => rfl
  | k + 1, x => by simp [nat_to_le_bytes, nat_to_le_bytes_length k]

theorem le_val_nat_to_le_bytes : ∀ (k x : Nat), le_val (nat_to_le_bytes k x) = x % 256 ^ k
  | 0, x => by simp [nat_to_le_bytes, le_val, Nat.mod_one]
  | k + 1, x => by
      simp only [nat_to_le_bytes, le_val, le_val_nat_to_le_bytes k]
      rw [pow_succ, mul_comm (256 ^ k) 256, Nat.mod_mul]

theorem txo_key_inj {a n b m : Nat} (h : txo_key a n = txo_key b m) :
    a % 2 ^ 128 = b % 2 ^ 128 ∧ n % 2 ^ 32 = m % 2 ^ 32 := by
  have htake : nat_to_le_bytes 16 a = nat_to_le_bytes 16 b := by
    have ha := congrArg (fun l => l.take 16) h
    simpa [txo_key, List.take_left' (nat_to_le_bytes_length 16 a),
      List.take_left' (nat_to_le_bytes_length 16 b)] using ha
  have hdrop : nat_to_le_bytes 4 n = nat_to_le_bytes 4 m := by
    have hb := congrArg (fun l => l.drop 16) h
    simpa [txo_key, List.drop_left' (nat_to_le_bytes_length 16 a),
      List.drop_left' (nat_to_le_bytes_length 16 b)] using hb
  constructor
  · have := congrArg le_val htake
    rw [le_val_nat_to_le_bytes, le_val_nat_to_le_bytes] at this
    have h256 : (256 : Nat) ^ 16 = 2 ^ 128 := by norm_num
    rwa [h256] at this
  · have := congrArg le_val hdrop
    rw [le_val_nat_to_le_bytes, le_val_nat_to_le_bytes] at this
    have h256 : (256 : Nat) ^ 4 = 2 ^ 32 := by norm_num
    rwa [h256] at this

theorem compress_lt (txid : Nat) : compress txid < 2 ^ 128 :=
  Nat.mod_lt _ (by norm_num)

/-! ## Write-batch lemmas -/

theorem batch_tx_outputs_mem (cid : Nat) :
    ∀ (outs : List TxOut) (n i : Nat) (hi : i < outs.length),
      (txo_key cid (n + i), txo_to_u8 (outs.get ⟨i, hi⟩)) ∈ batch_tx_outputs cid n outs
  | [], n, i, hi => by cases hi
  | o :: rest, n, 0, hi => by
      simp [batch_tx_outputs]
  | o :: rest, n, i + 1, hi => by
      have := batch_tx_outputs_mem cid rest (n + 1) i (Nat.lt_of_succ_lt_succ hi)
      have harith : n + 1 + i = n + (i + 1) := by omega
      rw [harith] at this
      exact List.mem_cons_of_mem _ this

theorem batch_tx_outputs_keys (cid : Nat) :
    ∀ (outs : List TxOut) (n : Nat),
      (batch_tx_outputs cid n outs).map Prod.fst =
        (List.range outs.length).map (fun i => txo_key cid (n + i))
  | [], n => rfl
  | o :: rest, n => by
      simp only [batch_tx_outputs, List.map_cons, List.length_cons,
        List.range_succ_eq_map, batch_tx_outputs_keys cid rest (n + 1), List.map_map]
      refine congrArg (fun l => txo_key cid (n + 0) :: l) ?_
      apply List.map_congr_left
      intro i _
      simp only [Function.comp_apply, Nat.succ_eq_add_one]
      refine congrArg (txo_key cid) ?_
      omega

theorem batch_tx_outputs_keys_nodup (cid : Nat) (outs : List TxOut)
    (hlen : outs.length ≤ 2 ^ 32) :
    ((batch_tx_outputs cid 0 outs).map Prod.fst).Nodup := by
  rw [batch_tx_outputs_keys]
  refine List.Nodup.map_on ?_ (List.nodup_range _)
  intro i hi j hj hk
  rw [List.mem_range] at hi hj
  have := (txo_key_inj hk).2
  simp only [Nat.zero_add] at this
  rwa [Nat.mod_eq_of_lt (lt_of_lt_of_le hi hlen), Nat.mod_eq_of_lt (lt_of_lt_of_le hj hlen)]
    at this

theorem batch_tx_outputs_keys_cid {cid : Nat} {outs : List TxOut} {n : Nat} {k : DiskKey}
    (hk : k ∈ (batch_tx_outputs cid n outs).map Prod.fst) :
    ∃ i, k = txo_key cid i := by
  rw [batch_tx_outputs_keys] at hk
  rcases List.mem_map.mp hk with ⟨i, _, rfl⟩
  exact ⟨n + i, rfl⟩

theorem build_batch_keys_nodup (block : Block)
    (hnd : (block.txdata.map (fun t => compress t.txid)).Nodup)
    (hlen : ∀ tx ∈ block.txdata, tx.output.length ≤ 2 ^ 32) :
    ((build_batch block).map Prod.fst).Nodup := by
  unfold build_batch
  rw [List.map_flatMap]
  rw [List.nodup_flatMap]
  constructor
  · intro tx htx
    exact batch_tx_outputs_keys_nodup _ _ (hlen tx htx)
  · have hpw : block.txdata.Pairwise
        (fun a b => compress a.txid ≠ compress b.txid) := List.pairwise_map.mp hnd
    refine hpw.imp ?_
    intro a b hab
    intro k hka hkb
    rcases batch_tx_outputs_keys_cid hka with ⟨i, rfl⟩
    rcases batch_tx_outputs_keys_cid hkb with ⟨j, hj⟩
    have := (txo_key_inj hj).1
    rw [Nat.mod_eq_of_lt (compress_lt a.txid), Nat.mod_eq_of_lt (compress_lt b.txid)] at this
    exact hab this

/-! ## Claim C3 -/

/-- C3: when `update_unspent_cache` succeeds at a height, the cache
afterwards contains every output of every transaction of the fetched block
— in-memory: one entry per transaction under its compressed txid holding
one live slot per output in output order (merged by the single `extend`);
disk: one key/value pair per (compressed txid, output index), applied as
one atomic batch — and the fetched raw block is returned unchanged.
Transactions are assumed to have pairwise distinct compressed txids
(collisions within one block would overwrite, cf. C10). -/
theorem C3_update_unspent_cache_records_all_outputs :
    (∀ (dbg : Bool) (unspent : MemCache) (get_block : Nat → Except Unit Block)
      (height : Nat) (block : Block),
      get_block height = Except.ok block →
      (block.txdata.map (fun t => compress t.txid)).Nodup →
      (update_unspent_cache_mem dbg unspent get_block height).1 = Except.ok block ∧
      ∀ tx ∈ block.txdata,
        (update_unspent_cache_mem dbg unspent get_block height).2.1 (compress tx.txid) =
          some (tx.output.map some)) ∧
    (∀ (unspent : DiskDB) (get_block : Nat → Except Unit Block)
      (height : Nat) (block : Block),
      get_block height = Except.ok block →
      unspent.write_fail = false →
      (block.txdata.map (fun t => compress t.txid)).Nodup →
      (∀ tx ∈ block.txdata, tx.output.length ≤ 2 ^ 32) →
      (update_unspent_cache_disk unspent get_block height).1 = Except.ok block ∧
      ∀ tx ∈ block.txdata, ∀ (i : Nat) (hi : i < tx.output.length),
        (update_unspent_cache_disk unspent get_block height).2.data
            (txo_key (compress tx.txid) i) =
          some (txo_to_u8 (tx.output.get ⟨i, hi⟩))) := by
  constructor
  · intro dbg unspent get_block height block hgb hnd
    simp only [update_unspent_cache_mem, hgb]
    refine ⟨trivial, ?_⟩
    intro tx htx
    refine FMap.extend_of_mem _ _ ?_ ?_
    · exact List.mem_map_of_mem _ htx
    · simpa [List.map_map, Function.comp] using hnd
  · intro unspent get_block height block hgb hwf hnd hlen
    simp only [update_unspent_cache_disk, hgb, hwf, Bool.false_eq_true, if_false]
    refine ⟨trivial, ?_⟩
    intro tx htx i hi
    show FMap.extend unspent.data (build_batch block) (txo_key (compress tx.txid) i) =
      some (txo_to_u8 (tx.output.get ⟨i, hi⟩))
    refine FMap.extend_of_mem _ _ ?_ (build_batch_keys_nodup block hnd hlen)
    refine List.mem_flatMap.mpr ⟨tx, htx, ?_⟩
    have := batch_tx_outputs_mem (compress tx.txid) tx.output 0 i hi
    rwa [Nat.zero_add] at this

/-- Witness for C3: a block with one two-output transaction lands in both
caches in full, and the block is returned. -/
theorem C3_update_unspent_cache_records_all_outputs_witness :
    ((update_unspent_cache_mem false (fun _ => none)
        (fun _ => Except.ok ⟨3, [⟨9, [], [⟨50, [1]⟩, ⟨60, []⟩]⟩]⟩) 0).1 =
      Except.ok ⟨3, [⟨9, [], [⟨50, [1]⟩, ⟨60, []⟩]⟩]⟩ ∧
      (update_unspent_cache_mem false (fun _ => none)
        (fun _ => Except.ok ⟨3, [⟨9, [], [⟨50, [1]⟩, ⟨60, []⟩]⟩]⟩) 0).2.1 (compress 9) =
        some [some ⟨50, [1]⟩, some ⟨60, []⟩]) ∧
    ((update_unspent_cache_disk ⟨fun _ => none, fun _ => false, fun _ => false, false⟩
        (fun _ => Except.ok ⟨3, [⟨9, [], [⟨50, [1]⟩, ⟨60, []⟩]⟩]⟩) 0).1 =
      Except.ok ⟨3, [⟨9, [], [⟨50, [1]⟩, ⟨60, []⟩]⟩]⟩ ∧
      (update_unspent_cache_disk ⟨fun _ => none, fun _ => false, fun _ => false, false⟩
        (fun _ => Except.ok ⟨3, [⟨9, [], [⟨50, [1]⟩, ⟨60, []⟩]⟩]⟩) 0).2.data
          (txo_key (compress 9) 1) = some (txo_to_u8 ⟨60, []⟩)) := by
  have hmem := C3_update_unspent_cache_records_all_outputs.1 false (fun _ => none)
    (fun _ => Except.ok ⟨3, [⟨9, [], [⟨50, [1]⟩, ⟨60, []⟩]⟩]⟩) 0
    ⟨3, [⟨9, [], [⟨50, [1]⟩, ⟨60, []⟩]⟩]⟩ rfl (by decide)
  have hdisk := C3_update_unspent_cache_records_all_outputs.2
    ⟨fun _ => none, fun _ => false, fun _ => false, false⟩
    (fun _ => Except.ok ⟨3, [⟨9, [], [⟨50, [1]⟩, ⟨60, []⟩]⟩]⟩) 0
    ⟨3, [⟨9, [], [⟨50, [1]⟩, ⟨60, []⟩]⟩]⟩ rfl rfl (by decide) (by decide)
  refine ⟨⟨hmem.1, ?_⟩, ⟨hdisk.1, ?_⟩⟩
  · exact hmem.2 ⟨9, [], [⟨50, [1]⟩, ⟨60, []⟩]⟩ (by decide) 
  · exact hdisk.2 ⟨9, [], [⟨50, [1]⟩, ⟨60, []⟩]⟩ (by decide) 1 (by decide)

/-! ## Claim C10 -/

/-- C10: in release builds `update_unspent_cache` performs no
duplicate-key rejection: a block transaction whose compressed txid already
keys an in-memory entry replaces that entry with the transaction's own
outputs, and the call still returns the block; the debug-only duplicate
check (the warning list) is empty in release builds and never changes the
result or the cache in either build. -/
theorem C10_duplicate_key_replaces_entry (dbg : Bool) (unspent : MemCache)
    (get_block : Nat → Except Unit Block) (height : Nat) (block : Block)
    (tx : Transaction) (vmOld : VecMap TxOut)
    (hgb : get_block height = Except.ok block)
    (htx : tx ∈ block.txdata)
    (hnd : (block.txdata.map (fun t => compress t.txid)).Nodup)
    (hold : unspent (compress tx.txid) = some vmOld) :
    (update_unspent_cache_mem false unspent get_block height).1 = Except.ok block ∧
    (update_unspent_cache_mem false unspent get_block height).2.1 (compress tx.txid) =
      some (tx.output.map some) ∧
    (update_unspent_cache_mem false unspent get_block height).2.2 = [] ∧
    (update_unspent_cache_mem dbg unspent get_block height).1 =
      (update_unspent_cache_mem false unspent get_block height).1 ∧
    (update_unspent_cache_mem dbg unspent get_block height).2.1 =
      (update_unspent_cache_mem false unspent get_block height).2.1 := by
  have hrec := (C3_update_unspent_cache_records_all_outputs.1 false unspent get_block
    height block hgb hnd).2 tx htx
  refine ⟨?_, hrec, ?_, ?_, ?_⟩
  · simp only [update_unspent_cache_mem, hgb]
  · simp only [update_unspent_cache_mem, hgb]
    simp
  · simp only [update_unspent_cache_mem, hgb]
  · simp only [update_unspent_cache_mem, hgb]

/-- Witness for C10: an entry under `compress 9` holding an old slot list
is replaced by the colliding transaction's outputs, with `Ok` returned. -/
theorem C10_duplicate_key_replaces_entry_witness :
    (update_unspent_cache_mem false
        (FMap.insert (compress 9) [some ⟨1, []⟩] (fun _ => none))
        (fun _ => Except.ok ⟨3, [⟨9, [], [⟨50, [1]⟩]⟩]⟩) 0).1 =
      Except.ok ⟨3, [⟨9, [], [⟨50, [1]⟩]⟩]⟩ ∧
    (update_unspent_cache_mem false
        (FMap.insert (compress 9) [some ⟨1, []⟩] (fun _ => none))
        (fun _ => Except.ok ⟨3, [⟨9, [], [⟨50, [1]⟩]⟩]⟩) 0).2.1 (compress 9) =
      some [some ⟨50, [1]⟩] := by
  have h := C10_duplicate_key_replaces_entry false
    (FMap.insert (compress 9) [some ⟨1, []⟩] (fun _ => none))
    (fun _ => Except.ok ⟨3, [⟨9, [], [⟨50, [1]⟩]⟩]⟩) 0
    ⟨3, [⟨9, [], [⟨50, [1]⟩]⟩]⟩ ⟨9, [], [⟨50, [1]⟩]⟩ [some ⟨1, []⟩]
    rfl (by decide) (by decide) (FMap.insert_self _ _ _)
  exact ⟨h.1, h.2.1⟩

/-! ## Slot-persistence lemmas (claim C5) -/

theorem slot_at_of_none {m : MemCache} {k : Nat} (h : m k = none) (n : Nat) :
    slot_at m k n = none := by
  unfold slot_at
  rw [h]

theorem slot_at_of_some {m : MemCache} {k : Nat} {vm : VecMap TxOut} (h : m k = some vm)
    (n : Nat) : slot_at m k n = VecMap.slot vm n := by
  unfold slot_at
  rw [h]

theorem connect_input_mem_preserves_none (s : MemCache) (ot : ConnectedTx) (input : TxIn)
    {k n : Nat} (h : slot_at s k n = none) :
    slot_at (connect_input_mem s ot input).2.1 k n = none := by
  rcases hnull : input.previous_output.is_null with _ | _
  · rcases hl : s (compress input.previous_output.txid) with _ | vm
    · rw [connect_input_mem_not_found s ot hnull hl]
      exact h
    · rw [connect_input_mem_found s ot hnull hl]
      rcases hemp : VecMap.is_empty (VecMap.remove vm input.previous_output.vout).2 with _ | _
      · simp only [hemp, Bool.false_eq_true, if_false]
        by_cases hk : k = compress input.previous_output.txid
        · subst hk
          rw [slot_at_of_some (FMap.insert_self _ _ _)]
          have hvm : VecMap.slot vm n = none := by
            rw [slot_at_of_some hl] at h
            exact h
          exact VecMap.slot_remove vm _ hvm
        · unfold slot_at
          rw [FMap.insert_ne _ _ hk]
          unfold slot_at at h
          exact h
      · simp only [hemp, if_true]
        by_cases hk : k = compress input.previous_output.txid
        · subst hk
          exact slot_at_of_none (FMap.erase_self _ _) n
        · unfold slot_at
          rw [FMap.erase_ne _ hk]
          unfold slot_at at h
          exact h
  · rw [connect_input_mem_null s ot hnull]
    exact h

theorem connect_input_mem_remove_slot_event {s : MemCache} {ot : ConnectedTx} {input : TxIn}
    {k n : Nat} {o : Option TxOut}
    (he : MemEvent.remove_slot k n o ∈ (connect_input_mem s ot input).2.2) :
    slot_at (connect_input_mem s ot input).2.1 k n = none := by
  rcases hnull : input.previous_output.is_null with _ | _
  · rcases hl : s (compress input.previous_output.txid) with _ | vm
    · rw [connect_input_mem_not_found s ot hnull hl] at he ⊢
      simp at he
    · rw [connect_input_mem_found s ot hnull hl] at he ⊢
      have hkn : k = compress input.previous_output.txid ∧ n = input.previous_output.vout := by
        rcases List.mem_cons.mp he with habs | he
        · cases habs
        rcases List.mem_cons.mp he with heq | he
        · exact ⟨(MemEvent.remove_slot.injEq _ _ _ _ _ _).mp heq.symm |>.1.symm,
            ((MemEvent.remove_slot.injEq _ _ _ _ _ _).mp heq.symm).2.1.symm⟩
        · rcases hemp : VecMap.is_empty (VecMap.remove vm input.previous_output.vout).2 with _ | _
          · rw [hemp] at he
            simp at he
          · rw [hemp] at he
            simp at he
      rcases hkn with ⟨rfl, rfl⟩
      rcases hemp : VecMap.is_empty (VecMap.remove vm input.previous_output.vout).2 with _ | _
      · simp only [hemp, Bool.false_eq_true, if_false]
        rw [slot_at_of_some (FMap.insert_self _ _ _)]
        exact VecMap.slot_remove_self vm _
      · simp only [hemp, if_true]
        exact slot_at_of_none (FMap.erase_self _ _) _
  · rw [connect_input_mem_null s ot hnull] at he
    simp at he

theorem connect_inputs_mem_preserves_none :
    ∀ (ins : List TxIn) (s : MemCache) (ot : ConnectedTx) {k n : Nat},
      slot_at s k n = none →
      slot_at (connect_inputs_mem s ot ins).2.1 k n = none
  | [], s, ot, k, n, h => h
  | input :: rest, s, ot, k, n, h => by
      rcases hstep : connect_input_mem s ot input with ⟨r1, s1, ev⟩
      have hs1 : slot_at s1 k n = none := by
        have := connect_input_mem_preserves_none s ot input h
        rw [hstep] at this
        exact this
      rcases r1 with e1 | ot1
      · simp only [connect_inputs_mem, hstep]
        exact hs1
      · simp only [connect_inputs_mem, hstep]
        exact connect_inputs_mem_preserves_none rest s1 ot1 hs1

theorem connect_inputs_mem_remove_slot :
    ∀ (ins : List TxIn) (s : MemCache) (ot : ConnectedTx) {k n : Nat} {o : Option TxOut},
      MemEvent.remove_slot k n o ∈ (connect_inputs_mem s ot ins).2.2 →
      slot_at (connect_inputs_mem s ot ins).2.1 k n = none
  | [], s, ot, k, n, o, he => by
      simp [connect_inputs_mem] at he
  | input :: rest, s, ot, k, n, o, he => by
      rcases hstep : connect_input_mem s ot input with ⟨r1, s1, ev⟩
      rcases r1 with e1 | ot1
      · simp only [connect_inputs_mem, hstep] at he ⊢
        have := @connect_input_mem_remove_slot_event s ot input k n o
        rw [hstep] at this
        exact this he
      · simp only [connect_inputs_mem, hstep] at he ⊢
        rcases List.mem_append.mp he with he | he
        · have hs1 : slot_at s1 k n = none := by
            have := @connect_input_mem_remove_slot_event s ot input k n o
            rw [hstep] at this
            exact this he
          exact connect_inputs_mem_preserves_none rest s1 ot1 hs1
        · exact connect_inputs_mem_remove_slot rest s1 ot1 he

theorem connect_txs_mem_preserves_none :
    ∀ (txs : List Transaction) (s : MemCache) (ob : ConnectedBlock) {k n : Nat},
      slot_at s k n = none →
      slot_at (connect_txs_mem s ob txs).2.1 k n = none
  | [], s, ob, k, n, h => h
  | tx :: rest, s, ob, k, n, h => by
      rcases hstep : connect_inputs_mem s (ConnectedTx.fromRaw tx) tx.input with ⟨r1, s1, ev⟩
      have hs1 : slot_at s1 k n = none := by
        have := connect_inputs_mem_preserves_none tx.input s (ConnectedTx.fromRaw tx) h
        rw [hstep] at this
        exact this
      rcases r1 with e1 | ot1
      · simp only [connect_txs_mem, hstep]
        exact hs1
      · simp only [connect_txs_mem, hstep]
        exact connect_txs_mem_preserves_none rest s1 (ob.add_tx ot1) hs1

theorem connect_txs_mem_remove_slot :
    ∀ (txs : List Transaction) (s : MemCache) (ob : ConnectedBlock) {k n : Nat}
      {o : Option TxOut},
      MemEvent.remove_slot k n o ∈ (connect_txs_mem s ob txs).2.2 →
      slot_at (connect_txs_mem s ob txs).2.1 k n = none
  | [], s, ob, k, n, o, he => by
      simp [connect_txs_mem] at he
  | tx :: rest, s, ob, k, n, o, he => by
      rcases hstep : connect_inputs_mem s (ConnectedTx.fromRaw tx) tx.input with ⟨r1, s1, ev⟩
      rcases r1 with e1 | ot1
      · simp only [connect_txs_mem, hstep] at he ⊢
        have := connect_inputs_mem_remove_slot tx.input s (ConnectedTx.fromRaw tx)
          (o := o) (k := k) (n := n)
        rw [hstep] at this
        exact this he
      · simp only [connect_txs_mem, hstep] at he ⊢
        rcases List.mem_append.mp he with he | he
        · have hs1 : slot_at s1 k n = none := by
            have := connect_inputs_mem_remove_slot tx.input s (ConnectedTx.fromRaw tx)
              (o := o) (k := k) (n := n)
            rw [hstep] at this
            exact this he
          exact connect_txs_mem_preserves_none rest s1 (ob.add_tx ot1) hs1
        · exact connect_txs_mem_remove_slot rest s1 (ob.add_tx ot1) he

theorem delete_keys_preserves_none :
    ∀ (keys : List DiskKey) (db : DiskDB) {k : DiskKey}, db.data k = none →
      ((delete_keys db keys).2).data k = none
  | [], db, k, h => h
  | k0 :: rest, db, k, h => by
      rcases h0 : db.delete_fail k0 with _ | _
      · simp only [delete_keys, h0, Bool.false_eq_true, if_false]
        refine delete_keys_preserves_none rest (db.deleteKey k0) ?_
        by_cases hk : k = k0
        · subst hk
          exact FMap.erase_self _ _
        · show FMap.erase k0 db.data k = none
          rw [FMap.erase_ne _ hk]
          exact h
      · simp only [delete_keys, h0, if_true]
        exact h

theorem delete_keys_deletes :
    ∀ (keys : List DiskKey) (db : DiskDB),
      (∀ k ∈ keys, db.delete_fail k = false) →
      ∀ k ∈ keys, ((delete_keys db keys).2).data k = none
  | [], db, _, k, hk => by simp at hk
  | k0 :: rest, db, hfail, k, hk => by
      have h0 : db.delete_fail k0 = false := hfail k0 (List.mem_cons_self k0 rest)
      simp only [delete_keys, h0, Bool.false_eq_true, if_false]
      rcases List.mem_cons.mp hk with rfl | hk
      · exact delete_keys_preserves_none rest (db.deleteKey k) (FMap.erase_self _ _)
      · exact delete_keys_deletes rest (db.deleteKey k0)
          (fun k' hk' => hfail k' (List.mem_cons_of_mem _ hk')) k hk

/-! ## Claim C5 -/

/-- C5: when `connect_outpoints` fails on a block, no (even partially)
connected block is returned — the error carries nothing — and cache
mutations already performed are not rolled back: in-memory, every slot
whose removal is in the trace is still absent from the final cache state,
whether the call succeeded or failed; on disk, every referenced key of the
block has been deleted (deletes all precede value examination), so the
deletions persist even when a later input's value is missing. -/
theorem C5_no_rollback_of_cache_mutations :
    (∀ (unspent : MemCache) (block : Block) (k n : Nat) (o : Option TxOut),
      MemEvent.remove_slot k n o ∈ (connect_outpoints_mem unspent block).2.2 →
      slot_at (connect_outpoints_mem unspent block).2.1 k n = none) ∧
    (∀ (unspent : DiskDB) (block : Block),
      (∀ k ∈ collect_keys block, unspent.delete_fail k = false) →
      ∀ k ∈ collect_keys block,
        ((connect_outpoints_disk unspent block).2.1).data k = none) := by
  constructor
  · intro unspent block k n o he
    exact connect_txs_mem_remove_slot block.txdata unspent _ he
  · intro unspent block hfail k hk
    have hdel := delete_keys_deletes (collect_keys block) unspent hfail k hk
    simp only [connect_outpoints_disk]
    rcases hd : delete_keys unspent (collect_keys block) with ⟨d1, db'⟩
    rw [hd] at hdel
    rcases d1 with u | u
    · simpa using hdel
    · simpa using hdel

/-- Witness for C5: the first input's slot removal survives the error
raised by the second, missing input, in both backends. -/
theorem C5_no_rollback_of_cache_mutations_witness :
    (MemEvent.remove_slot (compress 1) 0 (some (⟨50, []⟩ : TxOut)) ∈
      (connect_outpoints_mem (FMap.insert (compress 1) [some ⟨50, []⟩] (fun _ => none))
        ⟨0, [⟨5, [⟨⟨1, 0⟩⟩, ⟨⟨2, 0⟩⟩], []⟩]⟩).2.2 ∧
      slot_at (connect_outpoints_mem (FMap.insert (compress 1) [some ⟨50, []⟩] (fun _ => none))
        ⟨0, [⟨5, [⟨⟨1, 0⟩⟩, ⟨⟨2, 0⟩⟩], []⟩]⟩).2.1 (compress 1) 0 = none) ∧
    ((∀ k ∈ collect_keys ⟨0, [⟨5, [⟨⟨1, 0⟩⟩, ⟨⟨2, 0⟩⟩], []⟩]⟩,
        (⟨FMap.insert (txo_key (compress 1) 0) (txo_to_u8 ⟨50, []⟩) (fun _ => none),
          fun _ => false, fun _ => false, false⟩ : DiskDB).delete_fail k = false) ∧
      ∀ k ∈ collect_keys ⟨0, [⟨5, [⟨⟨1, 0⟩⟩, ⟨⟨2, 0⟩⟩], []⟩]⟩,
        ((connect_outpoints_disk
          ⟨FMap.insert (txo_key (compress 1) 0) (txo_to_u8 ⟨50, []⟩) (fun _ => none),
            fun _ => false, fun _ => false, false⟩
          ⟨0, [⟨5, [⟨⟨1, 0⟩⟩, ⟨⟨2, 0⟩⟩], []⟩]⟩).2.1).data k = none) :=
  ⟨⟨by decide,
      C5_no_rollback_of_cache_mutations.1 _ _ _ _ (some (⟨50, []⟩ : TxOut)) (by decide)⟩,
    ⟨by decide,
      C5_no_rollback_of_cache_mutations.2 _ _ (by decide)⟩⟩

/-! ## Claim C9 -/

theorem read_le_append (k x : Nat) (rest : List Nat) :
    read_le k (nat_to_le_bytes k x ++ rest) = some (x % 256 ^ k, rest) := by
  unfold read_le
  have hlen : (nat_to_le_bytes k x ++ rest).length = k + rest.length := by
    simp [nat_to_le_bytes_length]
  rw [hlen, if_neg (by omega : ¬ k + rest.length < k),
    List.take_left' (nat_to_le_bytes_length k x), List.drop_left' (nat_to_le_bytes_length k x),
    le_val_nat_to_le_bytes]

theorem varint_roundtrip (n : Nat) (h : n < 2 ^ 64) (rest : List Nat) :
    varint_decode (varint_encode n ++ rest) = some (n, rest) := by
  unfold varint_encode
  by_cases h1 : n < 253
  · simp only [h1, if_true, List.cons_append, List.nil_append]
    unfold varint_decode
    simp [h1]
  · by_cases h2 : n < 2 ^ 16
    · simp only [h1, if_false, h2, if_true, List.cons_append]
      unfold varint_decode
      norm_num
      rw [read_le_append]
      have : n % 256 ^ 2 = n := Nat.mod_eq_of_lt (by norm_num; omega)
      rw [this]
    · by_cases h3 : n < 2 ^ 32
      · simp only [h1, if_false, h2, h3, if_true, List.cons_append]
        unfold varint_decode
        norm_num
        rw [read_le_append]
        have : n % 256 ^ 4 = n := Nat.mod_eq_of_lt (by norm_num; omega)
        rw [this]
      · simp only [h1, if_false, h2, h3, List.cons_append]
        unfold varint_decode
        norm_num
        rw [read_le_append]
        have : n % 256 ^ 8 = n := Nat.mod_eq_of_lt (by norm_num; omega)
        rw [this]

/-- C9: for every transaction output whose fields fit their machine widths
(`u64` amount, script shorter than `2^64` bytes), deserializing the
serialization succeeds and reproduces an equal value:
`txo_from_u8 (txo_to_u8 t) = some t`. -/
theorem C9_txo_serialization_roundtrip (t : TxOut) (hv : t.value < 2 ^ 64)
    (hl : t.script_pubkey.length < 2 ^ 64) :
    txo_from_u8 (txo_to_u8 t) = some t := by
  unfold txo_to_u8 txo_from_u8
  rw [List.append_assoc, read_le_append]
  have hval : t.value % 256 ^ 8 = t.value := Nat.mod_eq_of_lt (by norm_num; omega)
  rw [hval]
  simp only [varint_roundtrip t.script_pubkey.length hl t.script_pubkey]
  rw [if_neg (by omega : ¬ t.script_pubkey.length < t.script_pubkey.length)]
  rw [List.take_length]

/-- Witness for C9 at a concrete output. -/
theorem C9_txo_serialization_roundtrip_witness :
    (⟨50000, [81, 172]⟩ : TxOut).value < 2 ^ 64 ∧
    (⟨50000, [81, 172]⟩ : TxOut).script_pubkey.length < 2 ^ 64 ∧
    txo_from_u8 (txo_to_u8 ⟨50000, [81, 172]⟩) = some ⟨50000, [81, 172]⟩ :=
  ⟨by decide, by decide,
    C9_txo_serialization_roundtrip ⟨50000, [81, 172]⟩ (by decide) (by decide)⟩

/-! ## Shape lemmas for the connected block (claim C8) -/

theorem connect_input_mem_ok_shape {s : MemCache} {ot : ConnectedTx} {input : TxIn}
    {ot' : ConnectedTx} {s' : MemCache} {ev : List MemEvent}
    (h : connect_input_mem s ot input = (Except.ok ot', s', ev)) :
    ot'.raw = ot.raw ∧
    ot'.inputs = ot.inputs ++ ev.filterMap MemEvent.value ∧
    (ev.filterMap MemEvent.value).length =
      (if input.previous_output.is_null then 0 else 1) := by
  rcases hnull : input.previous_output.is_null with _ | _
  · rcases hl : s (compress input.previous_output.txid) with _ | vm
    · rw [connect_input_mem_not_found s ot hnull hl] at h
      simp at h
    · rw [connect_input_mem_found s ot hnull hl] at h
      rcases hr : (VecMap.remove vm input.previous_output.vout).1 with _ | out
      · rw [hr] at h
        simp at h
      · rw [hr] at h
        have hot : ot' = ot.add_input out := by
          have := congrArg (fun p => p.1) h
          simpa using this.symm
        have hev : ev = MemEvent.lookup (compress input.previous_output.txid) true ::
            MemEvent.remove_slot (compress input.previous_output.txid)
              input.previous_output.vout (some out) ::
              (if VecMap.is_empty (VecMap.remove vm input.previous_output.vout).2 then
                [MemEvent.remove_entry (compress input.previous_output.txid)] else []) := by
          have := congrArg (fun p => p.2.2) h
          simpa using this.symm
        subst hot
        subst hev
        rcases hemp : VecMap.is_empty (VecMap.remove vm input.previous_output.vout).2 with _ | _
        · simp [hemp, MemEvent.value, ConnectedTx.add_input]
        · simp [hemp, MemEvent.value, ConnectedTx.add_input]
  · rw [connect_input_mem_null s ot hnull] at h
    have hot : ot' = ot := by
      have := congrArg (fun p => p.1) h
      simpa using this.symm
    have hev : ev = [] := by
      have := congrArg (fun p => p.2.2) h
      simpa using this.symm
    subst hot
    subst hev
    simp

theorem connect_inputs_mem_ok_shape :
    ∀ (ins : List TxIn) (s : MemCache) (ot ot' : ConnectedTx) (s' : MemCache)
      (tr : List MemEvent),
      connect_inputs_mem s ot ins = (Except.ok ot', s', tr) →
      ot'.raw = ot.raw ∧
      ot'.inputs = ot.inputs ++ tr.filterMap MemEvent.value ∧
      (tr.filterMap MemEvent.value).length =
        (ins.filter (fun i => !i.previous_output.is_null)).length
  | [], s, ot, ot', s', tr, h => by
      simp only [connect_inputs_mem] at h
      have hot : ot' = ot := by
        have := congrArg (fun p => p.1) h
        simpa using this.symm
      have hev : tr = [] := by
        have := congrArg (fun p => p.2.2) h
        simpa using this.symm
      subst hot
      subst hev
      simp
  | input :: rest, s, ot, ot', s', tr, h => by
      rcases hstep : connect_input_mem s ot input with ⟨r1, s1, ev⟩
      rcases r1 with e1 | ot1
      · simp only [connect_inputs_mem, hstep] at h
        simp at h
      · simp only [connect_inputs_mem, hstep] at h
        rcases hr : connect_inputs_mem s1 ot1 rest with ⟨r2, s2, tr2⟩
        rw [hr] at h
        have hr2 : r2 = Except.ok ot' := by
          have := congrArg (fun p => p.1) h
          simpa using this
        have htr : tr = ev ++ tr2 := by
          have := congrArg (fun p => p.2.2) h
          simpa using this.symm
        subst hr2
        subst htr
        have hstepsh := connect_input_mem_ok_shape hstep
        have hih := connect_inputs_mem_ok_shape rest s1 ot1 ot' s2 tr2 hr
        refine ⟨hih.1.trans hstepsh.1, ?_, ?_⟩
        · rw [List.filterMap_append, hih.2.1, hstepsh.2.1, List.append_assoc]
        · rw [List.filterMap_append, List.length_append, hih.2.2, hstepsh.2.2,
            List.filter_cons]
          rcases hnull : input.previous_output.is_null with _ | _
          · simp [hnull, Nat.add_comm]
          · simp [hnull]

theorem connect_txs_mem_ok_shape :
    ∀ (txs : List Transaction) (s : MemCache) (ob cb : ConnectedBlock) (s' : MemCache)
      (tr : List MemEvent),
      connect_txs_mem s ob txs = (Except.ok cb, s', tr) →
      cb.header = ob.header ∧
      cb.hash = ob.hash ∧
      cb.txdata.map (fun ct => ct.raw) = ob.txdata.map (fun ct => ct.raw) ++ txs ∧
      (∀ ct ∈ cb.txdata, ct ∈ ob.txdata ∨
        ct.inputs.length =
          (ct.raw.input.filter (fun i => !i.previous_output.is_null)).length) ∧
      cb.txdata.flatMap (fun ct => ct.inputs) =
        ob.txdata.flatMap (fun ct => ct.inputs) ++ tr.filterMap MemEvent.value
  | [], s, ob, cb, s', tr, h => by
      simp only [connect_txs_mem] at h
      have hcb : cb = ob := by
        have := congrArg (fun p => p.1) h
        simpa using this.symm
      have hev : tr = [] := by
        have := congrArg (fun p => p.2.2) h
        simpa using this.symm
      subst hcb
      subst hev
      exact ⟨rfl, rfl, by simp, fun ct hct => Or.inl hct, by simp⟩
  | tx :: rest, s, ob, cb, s', tr, h => by
      rcases hstep : connect_inputs_mem s (ConnectedTx.fromRaw tx) tx.input with ⟨r1, s1, ev⟩
      rcases r1 with e1 | ot1
      · simp only [connect_txs_mem, hstep] at h
        simp at h
      · simp only [connect_txs_mem, hstep] at h
        rcases hr : connect_txs_mem s1 (ob.add_tx ot1) rest with ⟨r2, s2, tr2⟩
        rw [hr] at h
        have hr2 : r2 = Except.ok cb := by
          have := congrArg (fun p => p.1) h
          simpa using this
        have htr : tr = ev ++ tr2 := by
          have := congrArg (fun p => p.2.2) h
          simpa using this.symm
        subst hr2
        subst htr
        have hstepsh := connect_inputs_mem_ok_shape tx.input s (ConnectedTx.fromRaw tx)
          ot1 s1 ev hstep
        have hraw : ot1.raw = tx := hstepsh.1
        have hinp : ot1.inputs = ev.filterMap MemEvent.value := by
          have := hstepsh.2.1
          simpa [ConnectedTx.fromRaw] using this
        have hih := connect_txs_mem_ok_shape rest s1 (ob.add_tx ot1) cb s2 tr2 hr
        refine ⟨hih.1, hih.2.1, ?_, ?_, ?_⟩
        · rw [hih.2.2.1]
          simp [ConnectedBlock.add_tx, hraw]
        · intro ct hct
          rcases hih.2.2.2.1 ct hct with hmem | hlen
          · have hmem2 : ct ∈ ob.txdata ∨ ct = ot1 := by
              simpa [ConnectedBlock.add_tx] using hmem
            rcases hmem2 with hmem | hct1
            · exact Or.inl hmem
            · subst hct1
              refine Or.inr ?_
              rw [hinp, hraw, hstepsh.2.2]
          · exact Or.inr hlen
        · rw [hih.2.2.2.2]
          simp only [ConnectedBlock.add_tx, List.flatMap_append, List.flatMap_cons,
            List.flatMap_nil, List.append_nil, List.filterMap_append, hinp,
            List.append_assoc]

theorem connect_inputs_disk_ok_shape :
    ∀ (ins : List TxIn) (tx_outs : List (Except Unit (Option (List Nat))))
      (ot : ConnectedTx) (pos : Nat) (ot' : ConnectedTx) (pos' : Nat)
      (ev : List DiskEvent),
      connect_inputs_disk tx_outs ot pos ins = (Except.ok (ot', pos'), ev) →
      ot'.raw = ot.raw ∧
      ot'.inputs = ot.inputs ++ ev.filterMap DiskEvent.value ∧
      (ev.filterMap DiskEvent.value).length =
        (ins.filter (fun i => !i.previous_output.is_null)).length
  | [], tx_outs, ot, pos, ot', pos', ev, h => by
      simp only [connect_inputs_disk] at h
      have hot : ot' = ot := by
        have := congrArg (fun q => q.1) h
        simp at this
        exact this.1.symm
      have hev : ev = [] := by
        have := congrArg (fun q => q.2) h
        simpa using this.symm
      subst hot
      subst hev
      simp
  | input :: rest, tx_outs, ot, pos, ot', pos', ev, h => by
      rcases hnull : input.previous_output.is_null with _ | _
      · rcases hres : resolve_bytes (tx_outs.getD pos (Except.error ())) with _ | out
        · simp only [connect_inputs_disk, hnull, Bool.false_eq_true, if_false, hres] at h
          simp at h
        · simp only [connect_inputs_disk, hnull, Bool.false_eq_true, if_false, hres] at h
          rcases hr : connect_inputs_disk tx_outs (ot.add_input out) (pos + 1) rest
            with ⟨r2, tr2⟩
          rw [hr] at h
          have hr2 : r2 = Except.ok (ot', pos') := by
            have := congrArg (fun q => q.1) h
            simpa using this
          have htr : ev = DiskEvent.resolved input.previous_output out :: tr2 := by
            have := congrArg (fun q => q.2) h
            simpa using this.symm
          subst hr2
          subst htr
          have hih := connect_inputs_disk_ok_shape rest tx_outs (ot.add_input out)
            (pos + 1) ot' pos' tr2 hr
          refine ⟨hih.1, ?_, ?_⟩
          · rw [hih.2.1]
            simp [ConnectedTx.add_input, DiskEvent.value]
          · simp only [List.filterMap_cons, DiskEvent.value, List.length_cons,
              List.filter_cons, hnull]
            simp [hih.2.2, Nat.add_comm]
      · simp only [connect_inputs_disk, hnull, if_true] at h
        have hih := connect_inputs_disk_ok_shape rest tx_outs ot pos ot' pos' ev h
        refine ⟨hih.1, hih.2.1, ?_⟩
        rw [hih.2.2, List.filter_cons]
        simp [hnull]

theorem connect_txs_disk_ok_shape :
    ∀ (txs : List Transaction) (tx_outs : List (Except Unit (Option (List Nat))))
      (ob cb : ConnectedBlock) (pos : Nat) (tr : List DiskEvent),
      connect_txs_disk tx_outs ob pos txs = (Except.ok cb, tr) →
      cb.header = ob.header ∧
      cb.hash = ob.hash ∧
      cb.txdata.map (fun ct => ct.raw) = ob.txdata.map (fun ct => ct.raw) ++ txs ∧
      (∀ ct ∈ cb.txdata, ct ∈ ob.txdata ∨
        ct.inputs.length =
          (ct.raw.input.filter (fun i => !i.previous_output.is_null)).length) ∧
      cb.txdata.flatMap (fun ct => ct.inputs) =
        ob.txdata.flatMap (fun ct => ct.inputs) ++ tr.filterMap DiskEvent.value
  | [], tx_outs, ob, cb, pos, tr, h => by
      simp only [connect_txs_disk] at h
      have hcb : cb = ob := by
        have := congrArg (fun q => q.1) h
        simpa using this.symm
      have hev : tr = [] := by
        have := congrArg (fun q => q.2) h
        simpa using this.symm
      subst hcb
      subst hev
      exact ⟨rfl, rfl, by simp, fun ct hct => Or.inl hct, by simp⟩
  | tx :: rest, tx_outs, ob, cb, pos, tr, h => by
      rcases hstep : connect_inputs_disk tx_outs (ConnectedTx.fromRaw tx) pos tx.input
        with ⟨r1, ev⟩
      rcases r1 with e1 | p1
      · simp only [connect_txs_disk, hstep] at h
        simp at h
      · rcases p1 with ⟨ot1, pos1⟩
        simp only [connect_txs_disk, hstep] at h
        rcases hr : connect_txs_disk tx_outs (ob.add_tx ot1) pos1 rest with ⟨r2, tr2⟩
        rw [hr] at h
        have hr2 : r2 = Except.ok cb := by
          have := congrArg (fun q => q.1) h
          simpa using this
        have htr : tr = ev ++ tr2 := by
          have := congrArg (fun q => q.2) h
          simpa using this.symm
        subst hr2
        subst htr
        have hstepsh := connect_inputs_disk_ok_shape tx.input tx_outs
          (ConnectedTx.fromRaw tx) pos ot1 pos1 ev hstep
        have hraw : ot1.raw = tx := hstepsh.1
        have hinp : ot1.inputs = ev.filterMap DiskEvent.value := by
          have := hstepsh.2.1
          simpa [ConnectedTx.fromRaw] using this
        have hih := connect_txs_disk_ok_shape rest tx_outs (ob.add_tx ot1) cb pos1 tr2 hr
        refine ⟨hih.1, hih.2.1, ?_, ?_, ?_⟩
        · rw [hih.2.2.1]
          simp [ConnectedBlock.add_tx, hraw]
        · intro ct hct
          rcases hih.2.2.2.1 ct hct with hmem | hlen
          · have hmem2 : ct ∈ ob.txdata ∨ ct = ot1 := by
              simpa [ConnectedBlock.add_tx] using hmem
            rcases hmem2 with hmem | hct1
            · exact Or.inl hmem
            · subst hct1
              refine Or.inr ?_
              rw [hinp, hraw, hstepsh.2.2]
          · exact Or.inr hlen
        · rw [hih.2.2.2.2]
          simp only [ConnectedBlock.add_tx, List.flatMap_append, List.flatMap_cons,
            List.flatMap_nil, List.append_nil, List.filterMap_append, hinp,
            List.append_assoc]

/-! ## Claim C8 -/

/-- C8: when `connect_outpoints` succeeds on a block, the connected block
is built from the block's header and that header's hash, holds exactly one
connected transaction per raw transaction in the block's order, and each
connected transaction carries one resolved previous output per non-coinbase
input, appended in input order (the appended outputs are exactly the
resolved values of the run's resolution trace, in order) — both backends. -/
theorem C8_success_builds_connected_block :
    (∀ (unspent : MemCache) (block : Block) (cb : ConnectedBlock),
      (connect_outpoints_mem unspent block).1 = Except.ok cb →
      cb.header = block.header ∧
      cb.hash = block_hash block.header ∧
      cb.txdata.map (fun ct => ct.raw) = block.txdata ∧
      (∀ ct ∈ cb.txdata,
        ct.inputs.length =
          (ct.raw.input.filter (fun i => !i.previous_output.is_null)).length) ∧
      cb.txdata.flatMap (fun ct => ct.inputs) =
        ((connect_outpoints_mem unspent block).2.2).filterMap MemEvent.value) ∧
    (∀ (unspent : DiskDB) (block : Block) (cb : ConnectedBlock),
      (connect_outpoints_disk unspent block).1 = Except.ok cb →
      cb.header = block.header ∧
      cb.hash = block_hash block.header ∧
      cb.txdata.map (fun ct => ct.raw) = block.txdata ∧
      (∀ ct ∈ cb.txdata,
        ct.inputs.length =
          (ct.raw.input.filter (fun i => !i.previous_output.is_null)).length) ∧
      cb.txdata.flatMap (fun ct => ct.inputs) =
        ((connect_outpoints_disk unspent block).2.2).filterMap DiskEvent.value) := by
  constructor
  · intro unspent block cb hok
    have heq : connect_txs_mem unspent
        (ConnectedBlock.fromHeader block.header (block_hash block.header)) block.txdata =
        (Except.ok cb, (connect_outpoints_mem unspent block).2.1,
          (connect_outpoints_mem unspent block).2.2) := by
      rw [← hok]
      rfl
    have hsh := connect_txs_mem_ok_shape block.txdata unspent _ cb _ _ heq
    refine ⟨hsh.1, hsh.2.1, ?_, ?_, ?_⟩
    · have := hsh.2.2.1
      simpa [ConnectedBlock.fromHeader] using this
    · intro ct hct
      rcases hsh.2.2.2.1 ct hct with hmem | hlen
      · simp [ConnectedBlock.fromHeader] at hmem
      · exact hlen
    · have := hsh.2.2.2.2
      simpa [ConnectedBlock.fromHeader] using this
  · intro unspent block cb hok
    simp only [connect_outpoints_disk] at hok ⊢
    rcases hd : delete_keys unspent (collect_keys block) with ⟨d1, db'⟩
    rw [hd] at hok
    rcases d1 with u | u
    · simp at hok
    · simp only at hok
      rcases hr : connect_txs_disk ((collect_keys block).map unspent.multi_get_one)
          (ConnectedBlock.fromHeader block.header (block_hash block.header)) 0 block.txdata
        with ⟨r1, tr⟩
      rw [hr] at hok
      have hr1 : r1 = Except.ok cb := by simpa using hok
      subst hr1
      have hsh := connect_txs_disk_ok_shape block.txdata _ _ cb 0 tr hr
      refine ⟨hsh.1, hsh.2.1, ?_, ?_, ?_⟩
      · have := hsh.2.2.1
        simpa [ConnectedBlock.fromHeader] using this
      · intro ct hct
        rcases hsh.2.2.2.1 ct hct with hmem | hlen
        · simp [ConnectedBlock.fromHeader] at hmem
        · exact hlen
      · have := hsh.2.2.2.2
        simpa [ConnectedBlock.fromHeader] using this

/-- Witness for C8: a one-transaction block whose single input resolves,
in both backends, yields the connected block built from the header (and
hash) with the raw transaction and its resolved previous output. -/
theorem C8_success_builds_connected_block_witness :
    ((connect_outpoints_mem (FMap.insert (compress 1) [some ⟨50, []⟩] (fun _ => none))
        ⟨0, [⟨5, [⟨⟨1, 0⟩⟩], []⟩]⟩).1 =
      Except.ok ⟨0, 0, [⟨⟨5, [⟨⟨1, 0⟩⟩], []⟩, [⟨50, []⟩]⟩]⟩ ∧
      (⟨0, 0, [⟨⟨5, [⟨⟨1, 0⟩⟩], []⟩, [⟨50, []⟩]⟩]⟩ : ConnectedBlock).txdata.map
          (fun ct => ct.raw) =
        (⟨0, [⟨5, [⟨⟨1, 0⟩⟩], []⟩]⟩ : Block).txdata) ∧
    ((connect_outpoints_disk
        ⟨FMap.insert (txo_key (compress 1) 0) (txo_to_u8 ⟨50, []⟩) (fun _ => none),
          fun _ => false, fun _ => false, false⟩
        ⟨0, [⟨5, [⟨⟨1, 0⟩⟩], []⟩]⟩).1 =
      Except.ok ⟨0, 0, [⟨⟨5, [⟨⟨1, 0⟩⟩], []⟩, [⟨50, []⟩]⟩]⟩ ∧
      (⟨0, 0, [⟨⟨5, [⟨⟨1, 0⟩⟩], []⟩, [⟨50, []⟩]⟩]⟩ : ConnectedBlock).header =
        (⟨0, [⟨5, [⟨⟨1, 0⟩⟩], []⟩]⟩ : Block).header) :=
  ⟨⟨by rfl,
      (C8_success_builds_connected_block.1
        (FMap.insert (compress 1) [some ⟨50, []⟩] (fun _ => none))
        ⟨0, [⟨5, [⟨⟨1, 0⟩⟩], []⟩]⟩
        ⟨0, 0, [⟨⟨5, [⟨⟨1, 0⟩⟩], []⟩, [⟨50, []⟩]⟩]⟩ (by rfl)).2.2.1⟩,
    ⟨by rfl,
      (C8_success_builds_connected_block.2
        ⟨FMap.insert (txo_key (compress 1) 0) (txo_to_u8 ⟨50, []⟩) (fun _ => none),
          fun _ => false, fun _ => false, false⟩
        ⟨0, [⟨5, [⟨⟨1, 0⟩⟩], []⟩]⟩
        ⟨0, 0, [⟨⟨5, [⟨⟨1, 0⟩⟩], []⟩, [⟨50, []⟩]⟩]⟩ (by rfl)).1⟩⟩
